import Mathlib

/-!
# Verification of the gvrtex texture codec

Shallow embedding of the gvrtex GVR texture codec (Rust) in Lean 4, together
with theorems settling the specification claims.

Bytes are modelled as `Nat` (with explicit masking where the Rust `u8`/`u16`
semantics matter), RGBA images as a dimension pair plus a pixel function, and
the external collaborators (the `image` bitmap crate's triangle-filter resizer
and the `imagequant` color quantizer, plus the `f32` luma conversion) as
function parameters.
-/

/-! ## Basic data model -/

/-- One RGBA pixel, each channel a byte (`image::Rgba<u8>`). -/
structure Rgba where
  r : Nat
  g : Nat
  b : Nat
  a : Nat
deriving DecidableEq, Repr

/-- An RGBA bitmap (`image::RgbaImage`): dimensions plus a pixel function.
`pix x y` is the pixel at column `x`, row `y`; positions outside the
dimensions are irrelevant to every theorem below. -/
structure Image where
  width : Nat
  height : Nat
  pix : Nat → Nat → Rgba

/-- `formats.rs`: the palette entry format enumeration (`PixelFormat`). -/
inductive PixelFormat where
  | IntensityA8
  | RGB565
  | RGB5A3
deriving DecidableEq, Repr

/-- `formats.rs`: `PixelFormat::try_from(u8)`. -/
def PixelFormat.tryFrom (value : Nat) : Option PixelFormat :=
  match value with
  | 0 => some .IntensityA8
  | 1 => some .RGB565
  | 2 => some .RGB5A3
  | _ => none

/-- `formats.rs`: the data format enumeration (`DataFormat`). -/
inductive DataFormat where
  | Intensity4
  | Intensity8
  | IntensityA4
  | IntensityA8
  | Rgb565
  | Rgb5a3
  | Argb8888
  | Index4
  | Index8
  | Dxt1
deriving DecidableEq, Repr

/-- `formats.rs`: `DataFormat::try_from(u8)` (the one-byte on-disk codes). -/
def DataFormat.tryFrom (value : Nat) : Option DataFormat :=
  match value with
  | 0x00 => some .Intensity4
  | 0x01 => some .Intensity8
  | 0x02 => some .IntensityA4
  | 0x03 => some .IntensityA8
  | 0x04 => some .Rgb565
  | 0x05 => some .Rgb5a3
  | 0x06 => some .Argb8888
  | 0x08 => some .Index4
  | 0x09 => some .Index8
  | 0x0E => some .Dxt1
  | _ => none

/-! ## Errors (`error.rs`) -/

/-- `error.rs`: `TextureEncodeError` (payloads of the variants that carry
external error values are dropped; the dimension variants keep their fields). -/
inductive TextureEncodeError where
  | Encode
  | Palette
  | Mipmap
  | Format
  | SmallDimensions (width height x_block y_block : Nat)
  | InvalidDimensions (width height block_size : Nat)
deriving DecidableEq, Repr

/-- `error.rs`: `TextureDecodeError` (payloads of `Io`/`Image` dropped). -/
inductive TextureDecodeError where
  | InvalidFile
  | Undecoded
  | IoError
  | ImageError
deriving DecidableEq, Repr

/-- The observable outcome of running `TextureDecoder::decode`: a value, a
returned error, or a process abort (a Rust `unimplemented!()`/panic). -/
inductive DecodeOutcome (α : Type) where
  | ok (a : α)
  | err (e : TextureDecodeError)
  | panicked
deriving DecidableEq

/-! ## Encode-path validation (`gvrtex/src/codec.rs`, `GvrEncoderBase`) -/

/-- `codec.rs`: `GvrEncoderBase::validate_input`. The `(x_block_size,
y_block_size)` pair is what the format's `get_block_size()` returns. -/
def validate_input (block_size : Nat × Nat) (width height : Nat) :
    Except TextureEncodeError Unit :=
  let x_block_size := block_size.1
  let y_block_size := block_size.2
  let biggest_block := max x_block_size y_block_size
  if width < x_block_size ∨ height < y_block_size then
    .error (.SmallDimensions width height x_block_size y_block_size)
  else if width % biggest_block ≠ 0 ∨ height % biggest_block ≠ 0 then
    .error (.InvalidDimensions width height biggest_block)
  else
    .ok ()

/-- `lib.rs` `TextureEncoder::encode`, non-palettized path, pixel stage
abstracted: `validate_input` runs first and its error is returned before the
pixel encoder `enc` is ever consulted. -/
def encodeChecked (block_size : Nat × Nat) (enc : Image → List Nat)
    (img : Image) : Except TextureEncodeError (List Nat) :=
  match validate_input block_size img.width img.height with
  | .error e => .error e
  | .ok () => .ok (enc img)

/-! ## Palette building (`src/pixel_codecs.rs`) -/

/-- One `imagequant::RGBA` palette entry as returned by the quantization
collaborator. -/
structure QRgba where
  r : Nat
  g : Nat
  b : Nat
  a : Nat
deriving DecidableEq, Repr

/-- Rust `Vec::resize(new_len, value)`: truncate when shrinking, pad with
`value` when growing. -/
def vecResize {α : Type} (l : List α) (new_len : Nat) (value : α) : List α :=
  if new_len ≤ l.length then l.take new_len
  else l ++ List.replicate (new_len - l.length) value

/-- `pixel_codecs.rs` `palettize_image`, padding stage (lines 57-64): the
quantization collaborator itself is external; `palette` is what it returned.
If the palette does not have exactly `max_colors` entries it is resized to
`max_colors`, padding with the fully transparent color. -/
def palettizePad (palette : List QRgba) (max_colors : Nat) : List QRgba :=
  if palette.length ≠ max_colors then vecResize palette max_colors ⟨0, 0, 0, 0⟩
  else palette

/-- `pixel_codecs.rs` `encode_pixel_rgb5a3` (pure integer bit packing). -/
def encode_pixel_rgb5a3 (p : Rgba) : Nat :=
  if p.a ≤ 0xDA then
    ((p.r >>> 4) <<< 8) ||| ((p.g >>> 4) <<< 4) ||| (p.b >>> 4) |||
      ((p.a >>> 5) <<< 12)
  else
    ((p.r >>> 3) <<< 10) ||| ((p.g >>> 3) <<< 5) ||| (p.b >>> 3) ||| 0x8000

/-- `pixel_codecs.rs` `encode_pixel_rgb565`. -/
def encode_pixel_rgb565 (p : Rgba) : Nat :=
  ((p.r >>> 3) <<< 11) ||| ((p.g >>> 2) <<< 5) ||| (p.b >>> 3)

/-- `pixel_codecs.rs` `encode_pixel_intensity_alpha8`. The luma value
`(0.30*r + 0.59*g + 0.11*b) as u8` is `f32` arithmetic, abstracted as the
function parameter `lumaF`; the result is `(luma, alpha)`. -/
def encode_pixel_intensity_alpha8 (lumaF : Nat → Nat → Nat → Nat) (p : Rgba) :
    Nat × Nat :=
  (lumaF p.r p.g p.b, p.a)

/-- `pixel_codecs.rs` `encode_palette`: serialize each entry in the palette
color format, two bytes per entry (alpha-then-luma for IntensityA8,
big-endian u16 for RGB565/RGB5A3). -/
def encode_palette (lumaF : Nat → Nat → Nat → Nat)
    (palette_pixel_format : PixelFormat) : List QRgba → List Nat
  | [] => []
  | color :: rest =>
    let bytes :=
      match palette_pixel_format with
      | .RGB5A3 =>
        let pixel := encode_pixel_rgb5a3 ⟨color.r, color.g, color.b, color.a⟩
        [(pixel >>> 8) &&& 0xFF, pixel &&& 0xFF]
      | .RGB565 =>
        let pixel := encode_pixel_rgb565 ⟨color.r, color.g, color.b, color.a⟩
        [(pixel >>> 8) &&& 0xFF, pixel &&& 0xFF]
      | .IntensityA8 =>
        let pa := encode_pixel_intensity_alpha8 lumaF
          ⟨color.r, color.g, color.b, color.a⟩
        [pa.2, pa.1]
    bytes ++ encode_palette lumaF palette_pixel_format rest

/-! ## Mipmap generation (`gvrtex/src/lib.rs`, `TextureEncoder::encode_mipmaps`) -/

/-- `lib.rs` `encode_mipmaps`: pad an encoded level to at least 32 bytes
(`if encoded.len() < 32 { encoded.resize(32, 0) }`). -/
def pad32 (encoded : List Nat) : List Nat :=
  if encoded.length < 32 then encoded ++ List.replicate (32 - encoded.length) 0
  else encoded

/-- `lib.rs` `encode_mipmaps`, the `for _ in 0..mipmap_count` loop.
`resize img w h` stands for
`DynamicImage::ImageRgba8(img.clone()).resize_exact(w, h, FilterType::Triangle)`
(the external triangle-filter downsampler, always applied to the original
image), and `enc` for the base format's `GvrEncoder::encode`. -/
def encodeMipmapsGo (resize : Image → Nat → Nat → Image)
    (enc : Image → List Nat) (img : Image) : Nat → Nat → List Nat
  | 0, _ => []
  | count + 1, tex_size =>
    if tex_size < 1 then []
    else
      pad32 (enc (resize img tex_size tex_size)) ++
        encodeMipmapsGo resize enc img count (tex_size / 2)

/-- `lib.rs` `TextureEncoder::encode_mipmaps`: `mipmap_count =
img.width().ilog2()`, `tex_size` starts at `img.width() / 2`. -/
def encode_mipmaps (resize : Image → Nat → Nat → Image)
    (enc : Image → List Nat) (img : Image) : List Nat :=
  encodeMipmapsGo resize enc img img.width.log2 (img.width / 2)

/-- `lib.rs` `TextureEncoder::encode`, mipmap-enabled non-palettized path
after validation: the base payload followed by the appended mipmap chain. -/
def encodeWithMipmaps (resize : Image → Nat → Nat → Image)
    (enc : Image → List Nat) (img : Image) : List Nat :=
  enc img ++ encode_mipmaps resize enc img

/-! ## Decoder header handling (`gvrtex/src/lib.rs`, `TextureDecoder`) -/

/-- Read one byte of the file at `off` (`Cursor::read_u8`). -/
def readByte (file : List Nat) (off : Nat) : Option Nat :=
  file.get? off

/-- Read `n` bytes at `off` (`Cursor::read_exact` into an `n`-byte buffer). -/
def bytesAt (file : List Nat) (off n : Nat) : Option (List Nat) :=
  if off + n ≤ file.length then some ((file.drop off).take n) else none

/-- `Cursor::read_u32::<LittleEndian>` at `off`. -/
def readU32LE (file : List Nat) (off : Nat) : Option Nat :=
  match bytesAt file off 4 with
  | some [b0, b1, b2, b3] => some (b0 + (b1 <<< 8) + (b2 <<< 16) + (b3 <<< 24))
  | _ => none

/-- `Cursor::read_u16::<BigEndian>` at `off`. -/
def readU16BE (file : List Nat) (off : Nat) : Option Nat :=
  match bytesAt file off 2 with
  | some [b0, b1] => some ((b0 <<< 8) + b1)
  | _ => none

/-- The ASCII bytes of `"GCIX"`. -/
def gcixMagic : List Nat := [0x47, 0x43, 0x49, 0x58]

/-- The ASCII bytes of `"GBIX"`. -/
def gbixMagic : List Nat := [0x47, 0x42, 0x49, 0x58]

/-- The ASCII bytes of `"GVRT"`. -/
def gvrtMagic : List Nat := [0x47, 0x56, 0x52, 0x54]

/-- `lib.rs` `TextureDecoder::is_valid_gvr`: both magic strings present and
correctly positioned; short reads surface as I/O errors. -/
def is_valid_gvr (file : List Nat) : Except TextureDecodeError Unit :=
  match bytesAt file 0 4 with
  | none => .error .IoError
  | some type_magic =>
    if type_magic ≠ gcixMagic ∧ type_magic ≠ gbixMagic then .error .InvalidFile
    else
      match bytesAt file 0x10 4 with
      | none => .error .IoError
      | some tex_magic =>
        if tex_magic ≠ gvrtMagic then .error .InvalidFile else .ok ()

/-- `formats.rs` `DataFlags`: the union of all defined bits
(`Mipmaps = 0x1`, `ExternalPalette = 0x2`, `InternalPalette = 0x8`, and the
composite `Palette = 0xA`); `bitflags`' `from_bits` accepts a byte exactly
when it has no bits outside this union. -/
def dataFlagsAllBits : Nat := 0xB

/-- `lib.rs` `TextureDecoder::decode`. The per-format pixel decoding stage
(`create_new_decoder(_with_palette)` lives in the crate's pixel codec module)
is abstracted as `pixelDecode format palette_format palettized data width
height`; `none` from it models the decoder's `std::io::Error`. The
`unimplemented!()` hit when the `ExternalPalette` flag is set is modelled as
the `panicked` outcome. -/
def TextureDecoder.decode
    (pixelDecode : DataFormat → PixelFormat → Bool → List Nat → Nat → Nat →
      Option Image)
    (file : List Nat) : DecodeOutcome Image :=
  match is_valid_gvr file with
  | .error e => .err e
  | .ok () =>
  match readU32LE file 0x14 with
  | none => .err .IoError
  | some chunk_size =>
  let data_len := chunk_size - 8
  match readByte file 0x1A with
  | none => .err .IoError
  | some flags =>
  if (flags &&& 0xF) &&& (dataFlagsAllBits ^^^ 0xF) ≠ 0 then .err .InvalidFile
  else
  let data_flags := flags &&& 0xF
  match PixelFormat.tryFrom ((flags >>> 4) &&& 0xF) with
  | none => .err .InvalidFile
  | some palette_format =>
  match readByte file 0x1B with
  | none => .err .IoError
  | some format_byte =>
  match DataFormat.tryFrom format_byte with
  | none => .err .InvalidFile
  | some data_format =>
  if data_flags &&& 0x2 ≠ 0 then .panicked
  else
  if data_flags &&& 0x8 ≠ 0 ∧ ¬(data_format = .Index4 ∨ data_format = .Index8)
  then .err .InvalidFile
  else
  match readU16BE file 0x1C with
  | none => .err .IoError
  | some width =>
  match readU16BE file 0x1E with
  | none => .err .IoError
  | some height =>
  let data := file.drop 0x20
  if data.length ≠ data_len then .err .InvalidFile
  else
  match pixelDecode data_format palette_format (data_flags &&& 0x8 ≠ 0) data
      width height with
  | none => .err .IoError
  | some image => .ok image

/-! ## Pixel block iterators (`gvrtex/src/iter.rs`) -/

/-- `iter.rs` `PixelBlockIterator`: the iterator state. -/
structure PixelBlockIterator where
  width : Nat
  height : Nat
  x_block_size : Nat
  y_block_size : Nat
  x_block : Nat
  y_block : Nat
  x : Nat
  y : Nat
deriving DecidableEq, Repr

/-- `iter.rs` `PixelBlockIterator::new`. -/
def PixelBlockIterator.new (width height x_block_size y_block_size : Nat) :
    PixelBlockIterator :=
  ⟨width, height, x_block_size, y_block_size, 0, 0, 0, 0⟩

/-- `iter.rs` `impl Iterator for PixelBlockIterator` (the
`impl_pixelblockiterator!` macro body with no per-block statement): one step,
returning the yielded coordinate and the successor state. -/
def PixelBlockIterator.next (s : PixelBlockIterator) :
    Option ((Nat × Nat) × PixelBlockIterator) :=
  if s.height ≤ s.y_block then none
  else
    let next_point := (s.x_block + s.x, s.y_block + s.y)
    let x := s.x + 1
    if x ≠ s.x_block_size then some (next_point, { s with x := x })
    else
      let y := s.y + 1
      if y ≠ s.y_block_size then some (next_point, { s with x := 0, y := y })
      else
        let x_block := s.x_block + s.x_block_size
        if s.width ≤ x_block then
          some (next_point,
            { s with x := 0, y := 0, x_block := 0,
                     y_block := s.y_block + s.y_block_size })
        else
          some (next_point, { s with x := 0, y := 0, x_block := x_block })

/-- `iter.rs` `PixelBlockIteratorExt`: the plain iterator plus the count of
fully completed blocks. -/
structure PixelBlockIteratorExt where
  iterator : PixelBlockIterator
  blocks : Nat
deriving DecidableEq, Repr

/-- `iter.rs` `PixelBlockIteratorExt::new`. -/
def PixelBlockIteratorExt.new (width height x_block_size y_block_size : Nat) :
    PixelBlockIteratorExt :=
  ⟨PixelBlockIterator.new width height x_block_size y_block_size, 0⟩

/-- `iter.rs` `impl Iterator for PixelBlockIteratorExt` (the same macro body;
the per-block statement increments `blocks`). Yields
`(blocks, x, x_block + x, y_block + y)`. -/
def PixelBlockIteratorExt.next (e : PixelBlockIteratorExt) :
    Option ((Nat × Nat × Nat × Nat) × PixelBlockIteratorExt) :=
  let s := e.iterator
  if s.height ≤ s.y_block then none
  else
    let next_point := (e.blocks, s.x, s.x_block + s.x, s.y_block + s.y)
    let x := s.x + 1
    if x ≠ s.x_block_size then some (next_point, ⟨{ s with x := x }, e.blocks⟩)
    else
      let y := s.y + 1
      if y ≠ s.y_block_size then
        some (next_point, ⟨{ s with x := 0, y := y }, e.blocks⟩)
      else
        let x_block := s.x_block + s.x_block_size
        if s.width ≤ x_block then
          some (next_point,
            ⟨{ s with x := 0, y := 0, x_block := 0,
                      y_block := s.y_block + s.y_block_size }, e.blocks + 1⟩)
        else
          some (next_point,
            ⟨{ s with x := 0, y := 0, x_block := x_block }, e.blocks + 1⟩)

/-- Drain up to `fuel` items from a `PixelBlockIterator` (a Rust `for` loop
over the iterator; any `fuel` at least the number of steps the iterator takes
before returning `None` collects the full yielded sequence). -/
def collectPBI : Nat → PixelBlockIterator → List (Nat × Nat)
  | 0, _ => []
  | fuel + 1, s =>
    match s.next with
    | none => []
    | some (p, s') => p :: collectPBI fuel s'

/-- Drain up to `fuel` items from a `PixelBlockIteratorExt`. -/
def collectPBIExt : Nat → PixelBlockIteratorExt → List (Nat × Nat × Nat × Nat)
  | 0, _ => []
  | fuel + 1, e =>
    match e.next with
    | none => []
    | some (p, e') => p :: collectPBIExt fuel e'

/-- The traversal order the specification describes: `bx × by` blocks
left-to-right then top-to-bottom, pixels within each block row-major. -/
def expectedOrder (w h bx byy : Nat) : List (Nat × Nat) :=
  (List.range (h / byy)).flatMap fun ib =>
    (List.range (w / bx)).flatMap fun jb =>
      (List.range byy).flatMap fun y =>
        (List.range bx).map fun x => (jb * bx + x, ib * byy + y)

/-- The traversal order with, per step, the number of fully completed blocks
and the column index within the block prepended. -/
def expectedOrderExt (w h bx byy : Nat) : List (Nat × Nat × Nat × Nat) :=
  (List.range (h / byy)).flatMap fun ib =>
    (List.range (w / bx)).flatMap fun jb =>
      (List.range byy).flatMap fun y =>
        (List.range bx).map fun x =>
          (ib * (w / bx) + jb, x, jb * bx + x, ib * byy + y)

/-- The property claimed of the two block iterator variants at a given
width, height and block size: both yield exactly `w * h` items and then
terminate, in block order (blocks left-to-right then top-to-bottom, pixels
row-major within a block), the extended variant also yielding the completed
block count and in-block column index. -/
def pixelBlockIteratorClaim (w h bx byy : Nat) : Prop :=
  (∀ fuel, w * h ≤ fuel →
    collectPBI fuel (PixelBlockIterator.new w h bx byy) =
      expectedOrder w h bx byy) ∧
  (∀ fuel, w * h ≤ fuel →
    collectPBIExt fuel (PixelBlockIteratorExt.new w h bx byy) =
      expectedOrderExt w h bx byy) ∧
  (expectedOrder w h bx byy).length = w * h ∧
  (expectedOrderExt w h bx byy).length = w * h

/-! ## Argb8888 pixel codec (`src/pixel_codecs.rs`) -/

/-- Fuel bound that exhausts a 4x4 `PixelBlockIteratorExt` for any
dimensions (the iterator advances `y_block` after at most `⌈w/4⌉·16` steps). -/
def argbFuel (w h : Nat) : Nat := (w + 4) * (h + 4)

/-- One iteration of the `encode_pixels_argb8888` loop body: write the
alpha/red byte pair of the current pixel at `block*32 + dest_idx` and the
green/blue pair 32 bytes later, then advance `dest_idx` by 2. -/
def argbEncStep (image : Image) (acc : (Nat → Nat) × Nat)
    (item : Nat × Nat × Nat × Nat) : (Nat → Nat) × Nat :=
  let block := item.1
  let x := item.2.2.1
  let y := item.2.2.2
  let p := image.pix x y
  let cur_idx := block * 32 + acc.2
  (fun q =>
    if q = cur_idx then p.a
    else if q = cur_idx + 1 then p.r
    else if q = cur_idx + 32 then p.g
    else if q = cur_idx + 33 then p.b
    else acc.1 q,
   acc.2 + 2)

/-- `pixel_codecs.rs` `encode_pixels_argb8888`. The destination
`vec![0u8; w*h*4]` is modelled as a function from byte index to byte; the
loop carries `dest_idx` starting at 0. -/
def encode_pixels_argb8888 (image : Image) : Nat → Nat :=
  ((collectPBIExt (argbFuel image.width image.height)
      (PixelBlockIteratorExt.new image.width image.height 4 4)).foldl
    (argbEncStep image) ((fun _ => 0), 0)).1

/-- One iteration of the `decode_pixels_argb8888` loop body: `put_pixel` at
the item's coordinates, reading the alpha/red pair at `src_idx + block*32`
and the green/blue pair 32 bytes later, then advance `src_idx` by 2. -/
def argbDecStep (data : Nat → Nat) (acc : (Nat → Nat → Rgba) × Nat)
    (item : Nat × Nat × Nat × Nat) : (Nat → Nat → Rgba) × Nat :=
  let block := item.1
  let x := item.2.2.1
  let y := item.2.2.2
  let cur_idx := acc.2 + block * 32
  (fun x' y' =>
    if x' = x ∧ y' = y then
      ⟨data (cur_idx + 1), data (cur_idx + 32), data (cur_idx + 33),
       data cur_idx⟩
    else acc.1 x' y',
   acc.2 + 2)

/-- `pixel_codecs.rs` `decode_pixels_argb8888`: starts from
`RgbaImage::new` (all-zero pixels) and `put_pixel`s each decoded pixel. -/
def decode_pixels_argb8888 (data : Nat → Nat) (width height : Nat) : Image :=
  ⟨width, height,
    ((collectPBIExt (argbFuel width height)
        (PixelBlockIteratorExt.new width height 4 4)).foldl
      (argbDecStep data) ((fun _ _ => ⟨0, 0, 0, 0⟩), 0)).1⟩

/-! ## BC1/DXT1 block compression (`src/pixel_codecs.rs`) -/

/-- `pixel_codecs.rs` `distance_bc1`: squared distance over the three color
channels at the two offsets (`i32` arithmetic; the values involved are far
below overflow). Blocks store pixels as `(b, g, r, a)` byte quadruples. -/
def distance_bc1 (color_1 : List Nat) (offset_1 : Nat) (color_2 : List Nat)
    (offset_2 : Nat) : Int :=
  (List.range 3).foldl
    (fun temp i =>
      let val : Int :=
        (color_1.getD (offset_1 + i) 0 : Int) -
          (color_2.getD (offset_2 + i) 0 : Int)
      temp + val * val)
    0

/-- The mutable locals of `compress_block_to_bc1`'s pair-search loop. -/
structure ScanState where
  dist : Option Int
  col_1 : Nat
  col_2 : Nat
  alpha : Bool
deriving DecidableEq, Repr

/-- One iteration of the outer `for i in 0..15` loop of
`compress_block_to_bc1`: a pixel with alpha below 16 sets the transparency
flag, otherwise the inner `for j in (i+1)..16` loop keeps the strictly
farthest pair seen so far (`temp > dist.unwrap_or(-1)`). -/
def scanStep (block : List Nat) (st : ScanState) (i : Nat) : ScanState :=
  if block.getD (i * 4 + 3) 0 < 16 then { st with alpha := true }
  else
    (List.range' (i + 1) (15 - i)).foldl
      (fun st' j =>
        let temp := distance_bc1 block (i * 4) block (j * 4)
        if temp > st'.dist.getD (-1) then
          { st' with dist := some temp, col_1 := i, col_2 := j }
        else st')
      st

/-- `compress_block_to_bc1`, pair-search phase (`for i in 0..15`). -/
def scanPairs (block : List Nat) : ScanState :=
  (List.range 15).foldl (scanStep block) ⟨none, 0, 0, false⟩

/-- `compress_block_to_bc1`: the two initial reference colors — the pixels of
the farthest pair with alpha forced opaque, or opaque black/white when no
pair was found (fewer than two opaque pixels among the first fifteen). Each
color is a `(b, g, r, a)` quadruple like the block's pixels. -/
def bc1InitialPair (block : List Nat) (st : ScanState) :
    List Nat × List Nat :=
  match st.dist with
  | none => ([0, 0, 0, 0xff], [0xff, 0xff, 0xff, 0xff])
  | some _ =>
    let color1_idx := st.col_1 * 4
    let color2_idx := st.col_2 * 4
    ([block.getD color1_idx 0, block.getD (color1_idx + 1) 0,
      block.getD (color1_idx + 2) 0, 0xff],
     [block.getD color2_idx 0, block.getD (color2_idx + 1) 0,
      block.getD (color2_idx + 2) 0, 0xff])

/-- `compress_block_to_bc1`, degenerate-pair perturbation (lines 211-224):
when both reference colors quantize to the same 5-6-5 value, the second's
color channels are overwritten — with pure white when the first quantizes to
zero, with pure black otherwise. Applied only when a pair was found. -/
def bc1Perturb (pair : List Nat × List Nat) : List Nat × List Nat :=
  let p0 := pair.1
  let p1 := pair.2
  if p0.getD 0 0 >>> 3 = p1.getD 0 0 >>> 3 ∧
      p0.getD 1 0 >>> 2 = p1.getD 1 0 >>> 2 ∧
      p0.getD 2 0 >>> 3 = p1.getD 2 0 >>> 3 then
    if p0.getD 0 0 >>> 3 = 0 ∧ p0.getD 1 0 >>> 2 = 0 ∧
        p0.getD 2 0 >>> 3 = 0 then
      (p0, [0xff, 0xff, 0xff, p1.getD 3 0])
    else
      (p0, [0, 0, 0, p1.getD 3 0])
  else
    (p0, p1)

/-- The reference-color pair entering the 5-6-5 encoding step: the initial
pair, perturbed when it came from the pair search (the `dist.is_none()`
default skips the perturbation branch). -/
def bc1PalettePair (block : List Nat) : List Nat × List Nat :=
  let st := scanPairs block
  match st.dist with
  | none => bc1InitialPair block st
  | some _ => bc1Perturb (bc1InitialPair block st)

/-- `compress_block_to_bc1`: high byte of a reference color's 5-6-5 encoding
(`result[0] = palette[0][2] & 0xf8 | palette[0][1] >> 5`; recall the color is
stored `(b, g, r, a)`, so index 2 is red). -/
def bc1ColorHi (p : List Nat) : Nat :=
  (p.getD 2 0 &&& 0xf8) ||| (p.getD 1 0 >>> 5)

/-- `compress_block_to_bc1`: low byte of a reference color's 5-6-5 encoding
(`result[1] = palette[0][1] << 3 & 0xe0 | palette[0][0] >> 3`, `u8`
shift semantics). -/
def bc1ColorLo (p : List Nat) : Nat :=
  ((p.getD 1 0 <<< 3) &&& 0xe0) ||| (p.getD 0 0 >>> 3)

/-- A reference color's 5-6-5 encoding read as the big-endian 16-bit value
its two stored bytes form. -/
def bc1ColorU16 (p : List Nat) : Nat :=
  bc1ColorHi p * 256 + bc1ColorLo p

/-- `compress_block_to_bc1`, storage-order condition (line 234): the swap of
the two encoded colors (and of the palette pair) happens exactly when
`(result[0] > result[2] || (result[0] == result[2] && result[1] >= result[3]))
== alpha` evaluates to true. -/
def bc1SwapCond (c0hi c0lo c1hi c1lo : Nat) (alpha : Bool) : Bool :=
  (decide (c1hi < c0hi) || (decide (c0hi = c1hi) && decide (c1lo ≤ c0lo)))
    == alpha

/-- The reference-color pair in storage order: swapped exactly when
`bc1SwapCond` holds of the pre-swap encodings and the transparency flag. -/
def bc1StoredPair (block : List Nat) : List Nat × List Nat :=
  let pp := bc1PalettePair block
  let st := scanPairs block
  if bc1SwapCond (bc1ColorHi pp.1) (bc1ColorLo pp.1) (bc1ColorHi pp.2)
      (bc1ColorLo pp.2) st.alpha then
    (pp.2, pp.1)
  else
    pp

/-- `compress_block_to_bc1`, palette derivation (lines 247-270): entries 2
and 3 from the stored pair — thirds interpolation (opaque) without
transparency, midpoint plus a fully transparent entry with it. -/
def bc1FullPalette (block : List Nat) : List (List Nat) :=
  let sp := bc1StoredPair block
  let st := scanPairs block
  let pal0 := sp.1
  let pal1 := sp.2
  if st.alpha = false then
    [pal0, pal1,
     [((pal0.getD 0 0 <<< 1) + pal1.getD 0 0) / 3,
      ((pal0.getD 1 0 <<< 1) + pal1.getD 1 0) / 3,
      ((pal0.getD 2 0 <<< 1) + pal1.getD 2 0) / 3, 0xff],
     [(pal0.getD 0 0 + (pal1.getD 0 0 <<< 1)) / 3,
      (pal0.getD 1 0 + (pal1.getD 1 0 <<< 1)) / 3,
      (pal0.getD 2 0 + (pal1.getD 2 0 <<< 1)) / 3, 0xff]]
  else
    [pal0, pal1,
     [(pal0.getD 0 0 + pal1.getD 0 0) >>> 1,
      (pal0.getD 1 0 + pal1.getD 1 0) >>> 1,
      (pal0.getD 2 0 + pal1.getD 2 0) >>> 1, 0xff],
     [0, 0, 0, 0]]

/-- `i32::MAX`, the initial best distance of `least_distance_bc1`. -/
def intMaxI32 : Int := 2147483647

/-- The `for (i, c) in palette.iter().enumerate()` loop of
`least_distance_bc1`: stops at the first non-opaque entry, keeps the
strictly nearest entry so far, returns immediately on an exact match. -/
def least_distance_go (color : List Nat) (offset : Nat) :
    List (List Nat) → Nat → Int → Nat → Nat
  | [], _, _, best => best
  | c :: rest, i, dist, best =>
    if c.getD 3 0 ≠ 0xff then best
    else
      let temp := distance_bc1 c 0 color offset
      if temp < dist then
        if temp = 0 then i
        else least_distance_go color offset rest (i + 1) temp i
      else least_distance_go color offset rest (i + 1) dist best

/-- `pixel_codecs.rs` `least_distance_bc1`: a pixel with alpha below 8 is
forced to index 3; otherwise the nearest opaque palette entry by squared RGB
distance, lowest index on ties, exact match short-circuiting. -/
def least_distance_bc1 (palette : List (List Nat)) (color : List Nat)
    (offset : Nat) : Nat :=
  if color.getD (offset + 3) 0 < 8 then 3
  else least_distance_go color offset palette 0 intMaxI32 0

/-- `pixel_codecs.rs` `compress_block_to_bc1`: the 8 output bytes — the two
stored 5-6-5 reference colors big-endian, then `block.len() / 16` bytes of
2-bit palette indices packed four per byte, most significant pair first (the
output vector is preallocated to 8 zero bytes). `block` is the 64-byte
`(b, g, r, a)` pixel list an `EncodeDxtBlockIterator` item provides. -/
def compress_block_to_bc1 (block : List Nat) : List Nat :=
  let sp := bc1StoredPair block
  let palette := bc1FullPalette block
  let idx_bytes :=
    (List.range (block.length / 16)).map fun i =>
      (least_distance_bc1 palette block (i * 16) <<< 6) |||
        (least_distance_bc1 palette block (i * 16 + 4) <<< 4) |||
        (least_distance_bc1 palette block (i * 16 + 8) <<< 2) |||
        least_distance_bc1 palette block (i * 16 + 12)
  [bc1ColorHi sp.1, bc1ColorLo sp.1, bc1ColorHi sp.2, bc1ColorLo sp.2] ++
    idx_bytes ++ List.replicate (4 - block.length / 16) 0

/-! ## Closed forms and specification-side functions used by the theorems -/

/-- The first element of a list attaining the maximum of `d`, scanning left
to right (ties keep the earlier element). -/
def firstMaxBy {α : Type} (d : α → Int) : List α → Option α
  | [] => none
  | a :: rest =>
    match firstMaxBy d rest with
    | none => some a
    | some b => if d b > d a then some b else some a

/-- The pairs one iteration of the outer scan loop examines: none when pixel
`i` has alpha below 16, otherwise `(i, j)` for every later pixel `j`. -/
def eligOf (block : List Nat) (i : Nat) : List (Nat × Nat) :=
  if block.getD (i * 4 + 3) 0 < 16 then []
  else (List.range' (i + 1) (15 - i)).map fun j => (i, j)

/-- The pairs `compress_block_to_bc1`'s search actually examines, in scan
order: first elements range over the first fifteen pixels and must have
alpha at least 16, second elements over all later pixels unconditionally. -/
def bc1EligiblePairs (block : List Nat) : List (Nat × Nat) :=
  (List.range 15).flatMap (eligOf block)

/-- All 120 unordered pixel pairs with both endpoints opaque (alpha at least
16), in scan order — the pair pool the specification claims is searched. -/
def bc1OpaquePairs (block : List Nat) : List (Nat × Nat) :=
  ((List.range 16).flatMap fun i =>
    (List.range' (i + 1) (15 - i)).map fun j => (i, j)).filter fun p =>
      16 ≤ block.getD (p.1 * 4 + 3) 0 ∧ 16 ≤ block.getD (p.2 * 4 + 3) 0

/-- Squared RGB distance of a pixel pair of the block. -/
def bc1PairDist (block : List Nat) (p : Nat × Nat) : Int :=
  distance_bc1 block (p.1 * 4) block (p.2 * 4)

/-- Claim C3 as stated: the pair search excludes every pixel of alpha below
16 (and any such pixel among all sixteen flags the block as transparent);
among the remaining pairs the one of maximum squared RGB distance is kept,
ties keeping the first in scan order. -/
def scanClaimC3 (block : List Nat) : Prop :=
  ((scanPairs block).alpha = true ↔ ∃ i < 16, block.getD (i * 4 + 3) 0 < 16) ∧
  (bc1OpaquePairs block ≠ [] →
    match firstMaxBy (bc1PairDist block) (bc1OpaquePairs block) with
    | none => False
    | some p =>
      (scanPairs block).dist = some (bc1PairDist block p) ∧
      (scanPairs block).col_1 = p.1 ∧ (scanPairs block).col_2 = p.2)

/-- The selection part of the pair-search loop (dist, col_1, col_2), as a
fold over an explicit pair list. -/
def selFold (block : List Nat) (acc : Option Int × Nat × Nat)
    (ps : List (Nat × Nat)) : Option Int × Nat × Nat :=
  ps.foldl
    (fun acc' p =>
      if bc1PairDist block p > acc'.1.getD (-1) then
        (some (bc1PairDist block p), p)
      else acc')
    acc

/-- Per-step item of the extended 4x4-block traversal in closed form:
at step `n`, `blocks = n / (bx*by)`, the in-block column is `n % (bx*by) %
bx`, and the coordinates place block `n / (bx*by)` row-major in a grid
`w / bx` blocks wide. -/
def itemAtExt (w bx byy n : Nat) : Nat × Nat × Nat × Nat :=
  let blk := n / (bx * byy)
  let r := n % (bx * byy)
  (blk, r % bx, blk % (w / bx) * bx + r % bx, blk / (w / bx) * byy + r / bx)

/-- Per-step item of the plain traversal in closed form. -/
def itemAtP (w bx byy n : Nat) : Nat × Nat :=
  let blk := n / (bx * byy)
  let r := n % (bx * byy)
  (blk % (w / bx) * bx + r % bx, blk / (w / bx) * byy + r / bx)

/-- The extended iterator's state before step `n`, in closed form. -/
def stateAtExt (w h bx byy n : Nat) : PixelBlockIteratorExt :=
  let blk := n / (bx * byy)
  let r := n % (bx * byy)
  ⟨⟨w, h, bx, byy, blk % (w / bx) * bx, blk / (w / bx) * byy, r % bx, r / bx⟩,
   blk⟩

/-- Packs a selection triple and a flag into a `ScanState`. -/
def mkScan (sel : Option Int × Nat × Nat) (a : Bool) : ScanState :=
  ⟨sel.1, sel.2.1, sel.2.2, a⟩

/-- Projection from an extended iterator item to the plain one. -/
def projItem (it : Nat × Nat × Nat × Nat) : Nat × Nat := (it.2.2.1, it.2.2.2)

/-- The step index at which the 4x4 traversal of a width-`w` image visits
the pixel `(x, y)`. -/
def argbIndexOf (w x y : Nat) : Nat :=
  (y / 4 * (w / 4) + x / 4) * 16 + y % 4 * 4 + x % 4

/-- The destination byte position the Argb8888 encoder's step `n` writes its
alpha byte to (`block * 32 + dest_idx` with `dest_idx = 2n`). -/
def argbBase (n : Nat) : Nat := n / 16 * 32 + 2 * n

/-! ## Concrete inputs used by counterexamples and witnesses -/

/-- A 4x4 block (in `(b,g,r,a)` pixel order) whose farthest pair is black
then white: pixel 0 opaque black, pixels 1-15 opaque white. -/
def blkBlackWhite : List Nat :=
  [0, 0, 0, 255] ++ (List.replicate 15 [255, 255, 255, 255]).flatten

/-- A uniform opaque mid-gray 4x4 block: the chosen pair is degenerate and
its 5-6-5 quantization is nonzero. -/
def blkGray : List Nat := (List.replicate 16 [128, 128, 128, 255]).flatten

/-- A 4x4 block whose only low-alpha pixel is the sixteenth: pixels 0-14
opaque black, pixel 15 transparent near-black. -/
def blkLastTransparent : List Nat :=
  (List.replicate 15 [0, 0, 0, 255]).flatten ++ [9, 9, 9, 0]

/-- A GVR file whose header flags byte has the `ExternalPalette` bit set
(flags `0x02`, data format `0x05` = Rgb5a3, 4x4, 32 payload bytes). -/
def fileExternalPalette : List Nat :=
  gcixMagic ++ [8, 0, 0, 0] ++ [0, 0, 0, 0] ++ [0, 0, 0, 0] ++
    gvrtMagic ++ [40, 0, 0, 0] ++ [0, 0] ++ [0x02] ++ [0x05] ++
    [0, 4] ++ [0, 4] ++ List.replicate 32 0

/-- A concrete 4x8 test image with distinct channel values per pixel. -/
def imgTest48 : Image := ⟨4, 8, fun x y => ⟨x + 10, y + 20, x + y, 40 + x⟩⟩

/-- A concrete 64x64 image (contents irrelevant to the mipmap layout). -/
def imgTest64 : Image := ⟨64, 64, fun x y => ⟨x, y, 0, 255⟩⟩

/-! ## Theorems -/

set_option maxRecDepth 8192

theorem byte_bit_facts : ∀ x < 256,
    x &&& 0xf8 = x / 8 * 8 ∧ (x <<< 3) &&& 0xe0 = x / 4 % 8 * 32 ∧
    x >>> 5 = x / 32 ∧ x >>> 3 = x / 8 ∧ x >>> 2 = x / 4 := by decide

theorem getD_lt_256 (l : List Nat) (hb : ∀ v ∈ l, v < 256) (i : Nat) :
    l.getD i 0 < 256 := by
  by_cases h : i < l.length
  · rw [List.getD_eq_getElem l 0 h]
    exact hb _ (List.getElem_mem h)
  · rw [List.getD_eq_default l 0 (by omega)]
    norm_num

theorem bc1ColorHi_arith (p : List Nat) (h1 : p.getD 1 0 < 256)
    (h2 : p.getD 2 0 < 256) :
    bc1ColorHi p = 8 * (p.getD 2 0 / 8) + p.getD 1 0 / 32 := by
  unfold bc1ColorHi
  obtain ⟨ha, -, hs, -, -⟩ := byte_bit_facts (p.getD 2 0) h2
  obtain ⟨-, -, hs1, -, -⟩ := byte_bit_facts (p.getD 1 0) h1
  rw [ha, hs1]
  have hlt : p.getD 1 0 / 32 < 2 ^ 3 := by omega
  have := Nat.mul_add_lt_is_or hlt (p.getD 2 0 / 8)
  have h8 : p.getD 2 0 / 8 * 8 = 2 ^ 3 * (p.getD 2 0 / 8) := by ring
  rw [h8, ← this]

theorem bc1ColorLo_arith (p : List Nat) (h0 : p.getD 0 0 < 256)
    (h1 : p.getD 1 0 < 256) :
    bc1ColorLo p = 32 * (p.getD 1 0 / 4 % 8) + p.getD 0 0 / 8 := by
  unfold bc1ColorLo
  obtain ⟨-, hc, -, hs3, -⟩ := byte_bit_facts (p.getD 1 0) h1
  obtain ⟨-, -, -, hs0, -⟩ := byte_bit_facts (p.getD 0 0) h0
  rw [hc, hs0]
  have hlt : p.getD 0 0 / 8 < 2 ^ 5 := by omega
  have := Nat.mul_add_lt_is_or hlt (p.getD 1 0 / 4 % 8)
  have h32 : p.getD 1 0 / 4 % 8 * 32 = 2 ^ 5 * (p.getD 1 0 / 4 % 8) := by ring
  rw [h32, ← this]

theorem bc1ColorU16_arith (p : List Nat) (h0 : p.getD 0 0 < 256)
    (h1 : p.getD 1 0 < 256) (h2 : p.getD 2 0 < 256) :
    bc1ColorU16 p =
      (8 * (p.getD 2 0 / 8) + p.getD 1 0 / 32) * 256 +
        (32 * (p.getD 1 0 / 4 % 8) + p.getD 0 0 / 8) ∧
    bc1ColorHi p < 256 ∧ bc1ColorLo p < 256 := by
  have hh := bc1ColorHi_arith p h1 h2
  have hl := bc1ColorLo_arith p h0 h1
  refine ⟨?_, ?_, ?_⟩
  · unfold bc1ColorU16
    rw [hh, hl]
  · omega
  · omega

/-- The 5-6-5 encoding determines and is determined by the three quantized
channels: equality of the 16-bit values coincides with equality of the
quantization triples. -/
theorem bc1ColorU16_eq_iff (p q : List Nat) (hp0 : p.getD 0 0 < 256)
    (hp1 : p.getD 1 0 < 256) (hp2 : p.getD 2 0 < 256) (hq0 : q.getD 0 0 < 256)
    (hq1 : q.getD 1 0 < 256) (hq2 : q.getD 2 0 < 256) :
    (bc1ColorU16 p = bc1ColorU16 q) ↔
      (p.getD 0 0 >>> 3 = q.getD 0 0 >>> 3 ∧ p.getD 1 0 >>> 2 = q.getD 1 0 >>> 2 ∧
       p.getD 2 0 >>> 3 = q.getD 2 0 >>> 3) := by
  obtain ⟨hu, -, -⟩ := bc1ColorU16_arith p hp0 hp1 hp2
  obtain ⟨hv, -, -⟩ := bc1ColorU16_arith q hq0 hq1 hq2
  obtain ⟨-, -, -, hp3, hp4⟩ := byte_bit_facts (p.getD 0 0) hp0
  obtain ⟨-, -, -, -, hp5⟩ := byte_bit_facts (p.getD 1 0) hp1
  obtain ⟨-, -, -, hp6, -⟩ := byte_bit_facts (p.getD 2 0) hp2
  obtain ⟨-, -, -, hq3, hq4⟩ := byte_bit_facts (q.getD 0 0) hq0
  obtain ⟨-, -, -, -, hq5⟩ := byte_bit_facts (q.getD 1 0) hq1
  obtain ⟨-, -, -, hq6, -⟩ := byte_bit_facts (q.getD 2 0) hq2
  rw [hu, hv, hp3, hp5, hp6, hq3, hq5, hq6]
  omega

theorem bc1ColorU16_zero_iff (p : List Nat) (hp0 : p.getD 0 0 < 256)
    (hp1 : p.getD 1 0 < 256) (hp2 : p.getD 2 0 < 256) :
    (bc1ColorU16 p = 0) ↔
      (p.getD 0 0 >>> 3 = 0 ∧ p.getD 1 0 >>> 2 = 0 ∧ p.getD 2 0 >>> 3 = 0) := by
  obtain ⟨hu, -, -⟩ := bc1ColorU16_arith p hp0 hp1 hp2
  obtain ⟨-, -, -, hp3, hp4⟩ := byte_bit_facts (p.getD 0 0) hp0
  obtain ⟨-, -, -, -, hp5⟩ := byte_bit_facts (p.getD 1 0) hp1
  obtain ⟨-, -, -, hp6, -⟩ := byte_bit_facts (p.getD 2 0) hp2
  rw [hu, hp3, hp5, hp6]
  omega

/-- `bc1Perturb` leaves the two colors with distinct 5-6-5 encodings whenever
they are bytes. -/
theorem bc1Perturb_ne (b0 g0 r0 a0 b1 g1 r1 a1 : Nat) (hb0 : b0 < 256)
    (hg0 : g0 < 256) (hr0 : r0 < 256) (hb1 : b1 < 256) (hg1 : g1 < 256)
    (hr1 : r1 < 256) :
    bc1ColorU16 (bc1Perturb ([b0, g0, r0, a0], [b1, g1, r1, a1])).1 ≠
      bc1ColorU16 (bc1Perturb ([b0, g0, r0, a0], [b1, g1, r1, a1])).2 := by
  have e00 : ([b0, g0, r0, a0] : List Nat).getD 0 0 = b0 := rfl
  have e01 : ([b0, g0, r0, a0] : List Nat).getD 1 0 = g0 := rfl
  have e02 : ([b0, g0, r0, a0] : List Nat).getD 2 0 = r0 := rfl
  have e10 : ([b1, g1, r1, a1] : List Nat).getD 0 0 = b1 := rfl
  have e11 : ([b1, g1, r1, a1] : List Nat).getD 1 0 = g1 := rfl
  have e12 : ([b1, g1, r1, a1] : List Nat).getD 2 0 = r1 := rfl
  unfold bc1Perturb
  simp only [e00, e01, e02, e10, e11, e12]
  by_cases heq : b0 >>> 3 = b1 >>> 3 ∧ g0 >>> 2 = g1 >>> 2 ∧ r0 >>> 3 = r1 >>> 3
  · rw [if_pos heq]
    by_cases hz : b0 >>> 3 = 0 ∧ g0 >>> 2 = 0 ∧ r0 >>> 3 = 0
    · rw [if_pos hz]
      intro hcontra
      have hw : bc1ColorU16 [0xff, 0xff, 0xff, ([b1, g1, r1, a1] : List Nat).getD 3 0] = 65535 := by
        norm_num [bc1ColorU16, bc1ColorHi, bc1ColorLo]
        decide
      have h0 : bc1ColorU16 [b0, g0, r0, a0] = 0 := by
        rw [bc1ColorU16_zero_iff [b0, g0, r0, a0] (by rw [e00]; omega)
          (by rw [e01]; omega) (by rw [e02]; omega)]
        rw [e00, e01, e02]
        exact hz
      rw [h0, hw] at hcontra
      omega
    · rw [if_neg hz]
      intro hcontra
      have hw : bc1ColorU16 [0, 0, 0, ([b1, g1, r1, a1] : List Nat).getD 3 0] = 0 := by
        norm_num [bc1ColorU16, bc1ColorHi, bc1ColorLo]
      rw [hw] at hcontra
      rw [bc1ColorU16_zero_iff [b0, g0, r0, a0] (by rw [e00]; omega)
        (by rw [e01]; omega) (by rw [e02]; omega)] at hcontra
      rw [e00, e01, e02] at hcontra
      exact hz hcontra
  · rw [if_neg heq]
    intro hcontra
    rw [bc1ColorU16_eq_iff [b0, g0, r0, a0] [b1, g1, r1, a1] (by rw [e00]; omega)
      (by rw [e01]; omega) (by rw [e02]; omega) (by rw [e10]; omega)
      (by rw [e11]; omega) (by rw [e12]; omega)] at hcontra
    rw [e00, e01, e02, e10, e11, e12] at hcontra
    exact heq hcontra

/-- After the degenerate-pair handling, the two reference colors of any
byte-valued block have distinct 5-6-5 encodings. -/
theorem bc1PalettePair_ne (block : List Nat) (hb : ∀ v ∈ block, v < 256) :
    bc1ColorU16 (bc1PalettePair block).1 ≠
      bc1ColorU16 (bc1PalettePair block).2 := by
  have hB := getD_lt_256 block hb
  cases hd : (scanPairs block).dist with
  | none =>
    simp only [bc1PalettePair, bc1InitialPair, hd]
    decide
  | some d =>
    simp only [bc1PalettePair, bc1InitialPair, hd]
    exact bc1Perturb_ne _ _ _ _ _ _ _ _ (hB _) (hB _) (hB _) (hB _) (hB _) (hB _)

theorem lex_swap_iff (A B C D : Nat) (hB : B < 256) (hD : D < 256)
    (hne : A * 256 + B ≠ C * 256 + D) (alpha : Bool) :
    (((decide (C < A) || (decide (A = C) && decide (D ≤ B))) == alpha) = true ↔
      (C * 256 + D < A * 256 + B ↔ alpha = true)) := by
  cases alpha <;> simp [decide_eq_true_eq] <;> omega

theorem bc1Perturb_fst (pr : List Nat × List Nat) :
    (bc1Perturb pr).1 = pr.1 := by
  unfold bc1Perturb
  dsimp only
  split
  · split <;> rfl
  · rfl

theorem bc1Perturb_snd_cases (pr : List Nat × List Nat) :
    (bc1Perturb pr).2 = pr.2 ∨
    (bc1Perturb pr).2 = [255, 255, 255, pr.2.getD 3 0] ∨
    (bc1Perturb pr).2 = [0, 0, 0, pr.2.getD 3 0] := by
  unfold bc1Perturb
  dsimp only
  split
  · split
    · right; left; rfl
    · right; right; rfl
  · left; rfl

theorem bc1PalettePair_getD_lt (block : List Nat)
    (hb : ∀ v ∈ block, v < 256) :
    ((bc1PalettePair block).1.getD 0 0 < 256 ∧
     (bc1PalettePair block).1.getD 1 0 < 256 ∧
     (bc1PalettePair block).1.getD 2 0 < 256) ∧
    ((bc1PalettePair block).2.getD 0 0 < 256 ∧
     (bc1PalettePair block).2.getD 1 0 < 256 ∧
     (bc1PalettePair block).2.getD 2 0 < 256) := by
  have hB := getD_lt_256 block hb
  cases hd : (scanPairs block).dist with
  | none =>
    simp only [bc1PalettePair, bc1InitialPair, hd]
    decide
  | some d =>
    simp only [bc1PalettePair, bc1InitialPair, hd]
    rw [bc1Perturb_fst]
    refine ⟨⟨hB _, hB _, hB _⟩, ?_⟩
    rcases bc1Perturb_snd_cases
        ((⟨[block.getD ((scanPairs block).col_1 * 4) 0,
            block.getD ((scanPairs block).col_1 * 4 + 1) 0,
            block.getD ((scanPairs block).col_1 * 4 + 2) 0, 255],
           [block.getD ((scanPairs block).col_2 * 4) 0,
            block.getD ((scanPairs block).col_2 * 4 + 1) 0,
            block.getD ((scanPairs block).col_2 * 4 + 2) 0, 255]⟩ :
          List Nat × List Nat)) with hcase | hcase | hcase <;>
      rw [hcase] <;>
      refine ⟨?_, ?_, ?_⟩ <;>
      first
        | exact hB _
        | exact (by norm_num : (255 : Nat) < 256)
        | exact (by norm_num : (0 : Nat) < 256)

/-- Claim C1, corrected: the BC1 compressor swaps the stored order of the two
reference colors exactly when `(color0_u16 > color1_u16) == has_transparency`
is TRUE (the code's lexicographic byte-pair test agrees with the u16
comparison), so after the swap `color1_u16 < color0_u16` holds iff the block
has NO transparency. -/
theorem bc1_swap_condition_corrected (block : List Nat)
    (hb : ∀ v ∈ block, v < 256) :
    bc1StoredPair block =
      (if bc1ColorU16 (bc1PalettePair block).2 <
            bc1ColorU16 (bc1PalettePair block).1 ↔
          (scanPairs block).alpha = true
       then ((bc1PalettePair block).2, (bc1PalettePair block).1)
       else bc1PalettePair block) ∧
    (bc1ColorU16 (bc1StoredPair block).2 <
        bc1ColorU16 (bc1StoredPair block).1 ↔
      (scanPairs block).alpha = false) := by
  obtain ⟨⟨h10, h11, h12⟩, h20, h21, h22⟩ := bc1PalettePair_getD_lt block hb
  have hne := bc1PalettePair_ne block hb
  obtain ⟨-, -, hlo1⟩ := bc1ColorU16_arith _ h10 h11 h12
  obtain ⟨-, -, hlo2⟩ := bc1ColorU16_arith _ h20 h21 h22
  have hiff := lex_swap_iff (bc1ColorHi (bc1PalettePair block).1)
    (bc1ColorLo (bc1PalettePair block).1) (bc1ColorHi (bc1PalettePair block).2)
    (bc1ColorLo (bc1PalettePair block).2) hlo1 hlo2 hne
    ((scanPairs block).alpha)
  have hmain : bc1StoredPair block =
      (if bc1ColorU16 (bc1PalettePair block).2 <
            bc1ColorU16 (bc1PalettePair block).1 ↔
          (scanPairs block).alpha = true
       then ((bc1PalettePair block).2, (bc1PalettePair block).1)
       else bc1PalettePair block) := by
    unfold bc1StoredPair bc1SwapCond
    exact if_congr hiff rfl rfl
  refine ⟨hmain, ?_⟩
  rw [hmain]
  by_cases hlt : bc1ColorU16 (bc1PalettePair block).2 <
      bc1ColorU16 (bc1PalettePair block).1
  · cases halpha : (scanPairs block).alpha with
    | false =>
      rw [if_neg (by simp [hlt])]
      simpa using hlt
    | true =>
      rw [if_pos (by simp [hlt])]
      dsimp only
      simp only [Bool.true_eq_false, iff_false]
      intro hcontra
      omega
  · cases halpha : (scanPairs block).alpha with
    | false =>
      rw [if_pos (by simp [hlt])]
      dsimp only
      refine ⟨fun _ => rfl, fun _ => ?_⟩
      omega
    | true =>
      rw [if_neg (by simp [hlt])]
      simp only [Bool.true_eq_false, iff_false]
      exact hlt

/-- Claim C2, corrected: when the chosen reference pair quantizes to one
5-6-5 value, the second color is replaced by pure WHITE when the first
quantizes to zero and by pure BLACK otherwise (the spec states the two cases
the other way round); either way the stored pair is non-degenerate. -/
theorem bc1_degenerate_perturb_corrected (block : List Nat)
    (hb : ∀ v ∈ block, v < 256) (d : Int)
    (hd : (scanPairs block).dist = some d)
    (heq : (bc1InitialPair block (scanPairs block)).1.getD 0 0 >>> 3 =
             (bc1InitialPair block (scanPairs block)).2.getD 0 0 >>> 3 ∧
           (bc1InitialPair block (scanPairs block)).1.getD 1 0 >>> 2 =
             (bc1InitialPair block (scanPairs block)).2.getD 1 0 >>> 2 ∧
           (bc1InitialPair block (scanPairs block)).1.getD 2 0 >>> 3 =
             (bc1InitialPair block (scanPairs block)).2.getD 2 0 >>> 3) :
    (bc1PalettePair block).2 =
      (if (bc1InitialPair block (scanPairs block)).1.getD 0 0 >>> 3 = 0 ∧
          (bc1InitialPair block (scanPairs block)).1.getD 1 0 >>> 2 = 0 ∧
          (bc1InitialPair block (scanPairs block)).1.getD 2 0 >>> 3 = 0
       then [255, 255, 255, 255]
       else [0, 0, 0, 255]) ∧
    bc1ColorU16 (bc1PalettePair block).1 ≠
      bc1ColorU16 (bc1PalettePair block).2 := by
  constructor
  · have h3 : (bc1InitialPair block (scanPairs block)).2.getD 3 0 = 255 := by
      simp only [bc1InitialPair, hd]
      rfl
    simp only [bc1PalettePair, hd]
    unfold bc1Perturb
    dsimp only
    rw [if_pos heq, apply_ite Prod.snd]
    dsimp only
    rw [h3]
  · exact bc1PalettePair_ne block hb

theorem bc1EligiblePairs_eq_flatMap (block : List Nat) :
    bc1EligiblePairs block = (List.range 15).flatMap (eligOf block) := rfl

theorem distance_bc1_nonneg (c1 : List Nat) (o1 : Nat) (c2 : List Nat)
    (o2 : Nat) : 0 ≤ distance_bc1 c1 o1 c2 o2 := by
  unfold distance_bc1
  have h3 : List.range 3 = [0, 1, 2] := rfl
  rw [h3]
  simp only [List.foldl_cons, List.foldl_nil]
  refine add_nonneg (add_nonneg (add_nonneg le_rfl ?_) ?_) ?_ <;>
    exact mul_self_nonneg _

theorem firstMaxBy_cons {α : Type} (d : α → Int) (a : α) (l : List α) :
    firstMaxBy d (a :: l) =
      match firstMaxBy d l with
      | none => some a
      | some b => if d b > d a then some b else some a := rfl

theorem inner_fold_as_selFold (block : List Nat) (i : Nat) :
    ∀ (l : List Nat) (st : ScanState),
      l.foldl
        (fun st' j =>
          let temp := distance_bc1 block (i * 4) block (j * 4)
          if temp > st'.dist.getD (-1) then
            { st' with dist := some temp, col_1 := i, col_2 := j }
          else st')
        st =
      mkScan
        (selFold block (st.dist, st.col_1, st.col_2) (l.map fun j => (i, j)))
        st.alpha := by
  intro l
  induction l with
  | nil => intro st; rfl
  | cons j rest ih =>
    intro st
    simp only [List.foldl_cons, List.map_cons, selFold, List.foldl_cons]
    rw [← selFold]
    by_cases hc : distance_bc1 block (i * 4) block (j * 4) >
        (st.dist, st.col_1, st.col_2).1.getD (-1)
    · rw [if_pos hc, if_pos (by exact hc)]
      exact ih _
    · rw [if_neg hc, if_neg (by exact hc)]
      exact ih st

theorem scanPairs_as_selFold (block : List Nat) :
    scanPairs block =
      mkScan (selFold block (none, 0, 0) (bc1EligiblePairs block))
        ((List.range 15).any fun i =>
          decide (block.getD (i * 4 + 3) 0 < 16)) := by
  have main : ∀ (l : List Nat) (acc : ScanState),
      l.foldl (scanStep block) acc =
        mkScan (selFold block (acc.dist, acc.col_1, acc.col_2)
          (l.flatMap (eligOf block)))
          (acc.alpha || l.any fun i =>
            decide (block.getD (i * 4 + 3) 0 < 16)) := by
    intro l
    induction l with
    | nil =>
      intro acc
      simp only [List.foldl_nil, List.flatMap_nil, List.any_nil, Bool.or_false]
      rfl
    | cons i rest ih =>
      intro acc
      simp only [List.foldl_cons, List.flatMap_cons, List.any_cons]
      by_cases hi : block.getD (i * 4 + 3) 0 < 16
      · have hstep : scanStep block acc i = { acc with alpha := true } := by
          unfold scanStep
          rw [if_pos hi]
        have helig : eligOf block i = [] := by
          unfold eligOf
          rw [if_pos hi]
        have hdec : decide (block.getD (i * 4 + 3) 0 < 16) = true :=
          decide_eq_true hi
        rw [hstep, ih, helig, List.nil_append, hdec]
        simp [mkScan]
      · have hstep : scanStep block acc i =
            (List.range' (i + 1) (15 - i)).foldl
              (fun st' j =>
                let temp := distance_bc1 block (i * 4) block (j * 4)
                if temp > st'.dist.getD (-1) then
                  { st' with dist := some temp, col_1 := i, col_2 := j }
                else st')
              acc := by
          unfold scanStep
          rw [if_neg hi]
        have helig : eligOf block i =
            (List.range' (i + 1) (15 - i)).map fun j => (i, j) := by
          unfold eligOf
          rw [if_neg hi]
        have hdec : decide (block.getD (i * 4 + 3) 0 < 16) = false :=
          decide_eq_false hi
        rw [hstep, inner_fold_as_selFold block i, ih, helig, hdec]
        have happ : ∀ (xs ys : List (Nat × Nat)) (a : Option Int × Nat × Nat),
            selFold block a (xs ++ ys) =
              selFold block (selFold block a xs) ys := by
          intro xs ys a
          unfold selFold
          rw [List.foldl_append]
        rw [happ]
        simp [mkScan]
  have h := main (List.range 15) ⟨none, 0, 0, false⟩
  unfold scanPairs
  rw [h]
  rfl

theorem selFold_eq_firstMaxBy (block : List Nat) :
    ∀ (ps : List (Nat × Nat)) (acc : Option Int × Nat × Nat),
      selFold block acc ps =
        match firstMaxBy (bc1PairDist block) ps with
        | none => acc
        | some p =>
          if bc1PairDist block p > acc.1.getD (-1) then
            (some (bc1PairDist block p), p)
          else acc := by
  intro ps
  induction ps with
  | nil => intro acc; rfl
  | cons p rest ih =>
    intro acc
    have hstep : selFold block acc (p :: rest) =
        selFold block
          (if bc1PairDist block p > acc.1.getD (-1) then
            (some (bc1PairDist block p), p)
          else acc) rest := by
      unfold selFold
      rw [List.foldl_cons]
    rw [hstep, ih, firstMaxBy_cons]
    cases hrest : firstMaxBy (bc1PairDist block) rest with
    | none =>
      dsimp only
    | some q =>
      dsimp only
      by_cases hpacc : bc1PairDist block p > acc.1.getD (-1)
      · rw [if_pos hpacc]
        by_cases hqp : bc1PairDist block q > bc1PairDist block p
        · rw [if_pos hqp]
          dsimp only
          rw [if_pos (by simp only [Option.getD_some]; omega)]
          rw [if_pos (by omega)]
        · rw [if_neg hqp]
          dsimp only
          rw [if_neg (by simp only [Option.getD_some]; omega), if_pos hpacc]
      · rw [if_neg hpacc]
        by_cases hqp : bc1PairDist block q > bc1PairDist block p
        · rw [if_pos hqp]
        · rw [if_neg hqp]
          dsimp only
          rw [if_neg (by omega), if_neg hpacc]

theorem firstMaxBy_eq_none_iff {α : Type} (d : α → Int) (l : List α) :
    firstMaxBy d l = none ↔ l = [] := by
  cases l with
  | nil => simp [firstMaxBy]
  | cons a rest =>
    rw [firstMaxBy_cons]
    cases firstMaxBy d rest with
    | none => simp
    | some b =>
      dsimp only
      split <;> simp

theorem firstMaxBy_spec {α : Type} (d : α → Int) :
    ∀ (l : List α) (p : α), firstMaxBy d l = some p →
      ∃ n, l.get? n = some p ∧ (∀ q ∈ l, d q ≤ d p) ∧
        ∀ m < n, ∀ q, l.get? m = some q → d q < d p := by
  intro l
  induction l with
  | nil => intro p h; simp [firstMaxBy] at h
  | cons a rest ih =>
    intro p h
    rw [firstMaxBy_cons] at h
    cases hrest : firstMaxBy d rest with
    | none =>
      rw [hrest] at h
      dsimp only at h
      have hnil : rest = [] := (firstMaxBy_eq_none_iff d rest).mp hrest
      subst hnil
      obtain rfl : a = p := by injection h
      refine ⟨0, rfl, ?_, ?_⟩
      · intro q hq
        simp only [List.mem_singleton] at hq
        subst hq
        exact le_refl _
      · intro m hm
        omega
    | some b =>
      rw [hrest] at h
      dsimp only at h
      obtain ⟨n, hget, hmax, hfirst⟩ := ih b hrest
      by_cases hba : d b > d a
      · rw [if_pos hba] at h
        obtain rfl : b = p := by injection h
        refine ⟨n + 1, by simpa using hget, ?_, ?_⟩
        · intro q hq
          rcases List.mem_cons.mp hq with rfl | hq'
          · omega
          · exact hmax q hq'
        · intro m hm q hq
          cases m with
          | zero =>
            simp only [List.get?_cons_zero, Option.some.injEq] at hq
            subst hq
            omega
          | succ m' =>
            simp only [List.get?_cons_succ] at hq
            exact hfirst m' (by omega) q hq
      · rw [if_neg hba] at h
        obtain rfl : a = p := by injection h
        refine ⟨0, rfl, ?_, ?_⟩
        · intro q hq
          rcases List.mem_cons.mp hq with rfl | hq'
          · exact le_refl _
          · have := hmax q hq'
            omega
        · intro m hm
          omega

/-- Claim C3, corrected: the scan flags transparency only from pixels 0..14
(pixel 15's alpha is never tested), and a low-alpha pixel is excluded only as
the FIRST element of a pair: the search runs over pairs `(i, j)`, `i < 15`,
`i < j < 16`, with pixel `i` opaque, keeping the pair of maximum squared RGB
distance, ties keeping the first in scan order. -/
theorem bc1_pair_scan_corrected (block : List Nat) :
    ((scanPairs block).alpha = true ↔
      ∃ i < 15, block.getD (i * 4 + 3) 0 < 16) ∧
    (scanPairs block =
      match firstMaxBy (bc1PairDist block) (bc1EligiblePairs block) with
      | none => ⟨none, 0, 0, (scanPairs block).alpha⟩
      | some p =>
        ⟨some (bc1PairDist block p), p.1, p.2, (scanPairs block).alpha⟩) ∧
    (∀ p, firstMaxBy (bc1PairDist block) (bc1EligiblePairs block) = some p →
      ∃ n, (bc1EligiblePairs block).get? n = some p ∧
        (∀ q ∈ bc1EligiblePairs block,
          bc1PairDist block q ≤ bc1PairDist block p) ∧
        ∀ m < n, ∀ q, (bc1EligiblePairs block).get? m = some q →
          bc1PairDist block q < bc1PairDist block p) := by
  have hsel := scanPairs_as_selFold block
  refine ⟨?_, ?_, ?_⟩
  · rw [hsel]
    simp [mkScan, List.any_eq_true, List.mem_range]
  · rw [hsel, selFold_eq_firstMaxBy]
    cases hfmb : firstMaxBy (bc1PairDist block) (bc1EligiblePairs block) with
    | none => rfl
    | some p =>
      dsimp only
      rw [if_pos (by
        have h0 : (0 : Int) ≤ bc1PairDist block p :=
          distance_bc1_nonneg block (p.1 * 4) block (p.2 * 4)
        simp only [Option.getD_none]
        omega)]
      rfl
  · intro p hp
    exact firstMaxBy_spec (bc1PairDist block) (bc1EligiblePairs block) p hp

theorem stateAtExt_zero (w h bx byy : Nat) :
    stateAtExt w h bx byy 0 = PixelBlockIteratorExt.new w h bx byy := by
  simp [stateAtExt, PixelBlockIteratorExt.new, PixelBlockIterator.new]

theorem stateAtExt_next (w h bx byy : Nat) (hbx : 0 < bx) (hby : 0 < byy)
    (hw : bx ∣ w) (hh : byy ∣ h) :
    ∀ n < w * h, (stateAtExt w h bx byy n).next =
      some (itemAtExt w bx byy n, stateAtExt w h bx byy (n + 1)) := by
  intro n hn
  obtain ⟨bw, hbw⟩ := hw
  obtain ⟨nby, hnby⟩ := hh
  have hbwdiv : w / bx = bw := by rw [hbw]; exact Nat.mul_div_cancel_left bw hbx
  set B := bx * byy with hB
  have hBpos : 0 < B := Nat.mul_pos hbx hby
  set q := n / B with hq
  set r := n % B with hr
  have hrB : r < B := Nat.mod_lt _ hBpos
  have hwh : w * h = B * (bw * nby) := by rw [hbw, hnby, hB]; ring
  have hqlt : q < bw * nby := by
    rw [hq, Nat.div_lt_iff_lt_mul hBpos]
    calc n < w * h := hn
      _ = bw * nby * B := by rw [hwh]; ring
  have hbwpos : 0 < bw := by
    rcases Nat.eq_zero_or_pos bw with h0 | h0
    · subst h0; omega
    · exact h0
  set x := r % bx with hx
  set y := r / bx with hy
  set qx := q % bw with hqx
  set qy := q / bw with hqy
  have hxlt : x < bx := Nat.mod_lt _ hbx
  have hylt : y < byy := by
    rw [hy, Nat.div_lt_iff_lt_mul hbx]
    calc r < B := hrB
      _ = byy * bx := by rw [hB]; ring
  have hqxlt : qx < bw := Nat.mod_lt _ hbwpos
  have hqylt : qy < nby := by
    rw [hqy, Nat.div_lt_iff_lt_mul hbwpos]
    calc q < bw * nby := hqlt
      _ = nby * bw := by ring
  have hnqr : n = r + q * B := by
    rw [hr, hq]
    exact (Nat.mod_add_div' n B).symm
  have hrxy : r = x + y * bx := by
    rw [hx, hy]
    exact (Nat.mod_add_div' r bx).symm
  have hqxy : q = qx + qy * bw := by
    rw [hqx, hqy]
    exact (Nat.mod_add_div' q bw).symm
  have hstate : stateAtExt w h bx byy n =
      ⟨⟨w, h, bx, byy, qx * bx, qy * byy, x, y⟩, q⟩ := by
    simp only [stateAtExt]
    rw [hbwdiv, ← hB, ← hq, ← hr, ← hx, ← hy, ← hqx, ← hqy]
  have hitem : itemAtExt w bx byy n = (q, x, qx * bx + x, qy * byy + y) := by
    simp only [itemAtExt]
    rw [hbwdiv, ← hB, ← hq, ← hr, ← hx, ← hy, ← hqx, ← hqy]
  have hguard : ¬ (h ≤ qy * byy) := by
    have h1 : qy + 1 ≤ nby := hqylt
    have h2 : (qy + 1) * byy ≤ nby * byy := Nat.mul_le_mul_right byy h1
    rw [Nat.succ_mul] at h2
    have h3 : nby * byy = h := by rw [hnby]; ring
    omega
  rw [hstate, hitem]
  show PixelBlockIteratorExt.next _ = _
  unfold PixelBlockIteratorExt.next
  dsimp only
  rw [if_neg hguard]
  by_cases hxa : x + 1 ≠ bx
  · rw [if_pos hxa]
    have hx1 : x + 1 < bx := by omega
    have hr1B : r + 1 < B := by
      have h2 : y * bx ≤ (byy - 1) * bx := Nat.mul_le_mul_right bx (by omega)
      have h3 : byy * bx = (byy - 1) * bx + bx := by
        have h6 : byy - 1 + 1 = byy := by omega
        calc byy * bx = (byy - 1 + 1) * bx := by rw [h6]
          _ = (byy - 1) * bx + bx := by rw [Nat.succ_mul]
      have h4 : B = byy * bx := by rw [hB]; ring
      omega
    have e1 : (n + 1) / B = q := by
      have h5 : n + 1 = (r + 1) + q * B := by omega
      rw [h5, Nat.add_mul_div_right _ _ hBpos, Nat.div_eq_of_lt hr1B, Nat.zero_add]
    have e2 : (n + 1) % B = r + 1 := by
      have h5 : n + 1 = (r + 1) + q * B := by omega
      rw [h5, Nat.add_mul_mod_self_right, Nat.mod_eq_of_lt hr1B]
    have e3 : (r + 1) % bx = x + 1 := by
      have h5 : r + 1 = (x + 1) + y * bx := by omega
      rw [h5, Nat.add_mul_mod_self_right, Nat.mod_eq_of_lt hx1]
    have e4 : (r + 1) / bx = y := by
      have h5 : r + 1 = (x + 1) + y * bx := by omega
      rw [h5, Nat.add_mul_div_right _ _ hbx, Nat.div_eq_of_lt hx1, Nat.zero_add]
    have hsucc : stateAtExt w h bx byy (n + 1) =
        ⟨⟨w, h, bx, byy, qx * bx, qy * byy, x + 1, y⟩, q⟩ := by
      simp only [stateAtExt]
      rw [hbwdiv, ← hB, e1, e2, e3, e4]
    rw [hsucc]
  · rw [if_neg hxa]
    have hx1 : x + 1 = bx := by omega
    by_cases hya : y + 1 ≠ byy
    · rw [if_pos hya]
      have hy1 : y + 1 < byy := by omega
      have hr1 : r + 1 = (y + 1) * bx := by
        rw [Nat.succ_mul]
        omega
      have hr1B : r + 1 < B := by
        have h2 : (y + 1) * bx ≤ (byy - 1) * bx :=
          Nat.mul_le_mul_right bx (by omega)
        have h3 : byy * bx = (byy - 1) * bx + bx := by
          have h6 : byy - 1 + 1 = byy := by omega
          calc byy * bx = (byy - 1 + 1) * bx := by rw [h6]
            _ = (byy - 1) * bx + bx := by rw [Nat.succ_mul]
        have h4 : B = byy * bx := by rw [hB]; ring
        omega
      have e1 : (n + 1) / B = q := by
        have h5 : n + 1 = (r + 1) + q * B := by omega
        rw [h5, Nat.add_mul_div_right _ _ hBpos, Nat.div_eq_of_lt hr1B, Nat.zero_add]
      have e2 : (n + 1) % B = r + 1 := by
        have h5 : n + 1 = (r + 1) + q * B := by omega
        rw [h5, Nat.add_mul_mod_self_right, Nat.mod_eq_of_lt hr1B]
      have e3 : (r + 1) % bx = 0 := by
        rw [hr1, Nat.mul_mod_left]
      have e4 : (r + 1) / bx = y + 1 := by
        rw [hr1, Nat.mul_div_cancel _ hbx]
      have hsucc : stateAtExt w h bx byy (n + 1) =
          ⟨⟨w, h, bx, byy, qx * bx, qy * byy, 0, y + 1⟩, q⟩ := by
        simp only [stateAtExt]
        rw [hbwdiv, ← hB, e1, e2, e3, e4]
      rw [hsucc]
    · rw [if_neg hya]
      have hy1 : y + 1 = byy := by omega
      have hrB1 : r + 1 = B := by
        have h6 : r + 1 = (y + 1) * bx := by rw [Nat.succ_mul]; omega
        rw [h6, hy1, hB]
        ring
      have e1 : (n + 1) / B = q + 1 := by
        have h5 : n + 1 = (q + 1) * B := by rw [Nat.succ_mul]; omega
        rw [h5, Nat.mul_div_cancel _ hBpos]
      have e2 : (n + 1) % B = 0 := by
        have h5 : n + 1 = (q + 1) * B := by rw [Nat.succ_mul]; omega
        rw [h5, Nat.mul_mod_left]
      by_cases hxb : w ≤ qx * bx + bx
      · rw [if_pos hxb]
        have hqx1 : qx + 1 = bw := by
          have h8 : (qx + 1) * bx = qx * bx + bx := Nat.succ_mul qx bx
          have h9 : w = bw * bx := by rw [hbw]; ring
          rcases le_or_lt (qx + 1) bw with h7 | h7
          · have h10 := Nat.mul_le_mul_right bx h7
            have h11 : (qx + 1) * bx = bw * bx := by omega
            exact Nat.eq_of_mul_eq_mul_right hbx h11
          · omega
        have e5 : (q + 1) % bw = 0 := by
          have h5 : q + 1 = (qy + 1) * bw := by rw [Nat.succ_mul]; omega
          rw [h5, Nat.mul_mod_left]
        have e6 : (q + 1) / bw = qy + 1 := by
          have h5 : q + 1 = (qy + 1) * bw := by rw [Nat.succ_mul]; omega
          rw [h5, Nat.mul_div_cancel _ hbwpos]
        have hsucc : stateAtExt w h bx byy (n + 1) =
            ⟨⟨w, h, bx, byy, 0, qy * byy + byy, 0, 0⟩, q + 1⟩ := by
          simp only [stateAtExt]
          rw [hbwdiv, ← hB, e1, e2, e5, e6]
          rw [Nat.zero_mod, Nat.zero_div, Nat.zero_mul, Nat.succ_mul]
        rw [hsucc]
      · rw [if_neg hxb]
        have hqx1 : qx + 1 < bw := by
          have h8 : (qx + 1) * bx = qx * bx + bx := Nat.succ_mul qx bx
          have h9 : w = bw * bx := by rw [hbw]; ring
          rcases le_or_lt bw (qx + 1) with h7 | h7
          · have h10 := Nat.mul_le_mul_right bx h7
            omega
          · exact h7
        have e5 : (q + 1) % bw = qx + 1 := by
          have h5 : q + 1 = (qx + 1) + qy * bw := by omega
          rw [h5, Nat.add_mul_mod_self_right, Nat.mod_eq_of_lt hqx1]
        have e6 : (q + 1) / bw = qy := by
          have h5 : q + 1 = (qx + 1) + qy * bw := by omega
          rw [h5, Nat.add_mul_div_right _ _ hbwpos, Nat.div_eq_of_lt hqx1, Nat.zero_add]
        have hsucc : stateAtExt w h bx byy (n + 1) =
            ⟨⟨w, h, bx, byy, qx * bx + bx, qy * byy, 0, 0⟩, q + 1⟩ := by
          simp only [stateAtExt]
          rw [hbwdiv, ← hB, e1, e2, e5, e6]
          rw [Nat.zero_mod, Nat.zero_div, Nat.succ_mul]
        rw [hsucc]

theorem stateAtExt_next_terminal (w h bx byy : Nat) (hbx : 0 < bx)
    (hby : 0 < byy) (hw : bx ∣ w) (hh : byy ∣ h) (hwpos : 0 < w) :
    (stateAtExt w h bx byy (w * h)).next = none := by
  obtain ⟨bw, hbw⟩ := hw
  obtain ⟨nby, hnby⟩ := hh
  have hbwdiv : w / bx = bw := by rw [hbw]; exact Nat.mul_div_cancel_left bw hbx
  have hbwpos : 0 < bw := by
    rcases Nat.eq_zero_or_pos bw with h0 | h0
    · subst h0; omega
    · exact h0
  have hwh : w * h = (bx * byy) * (bw * nby) := by rw [hbw, hnby]; ring
  have hq : w * h / (bx * byy) = bw * nby := by
    rw [hwh]
    exact Nat.mul_div_cancel_left _ (Nat.mul_pos hbx hby)
  have hrr : w * h % (bx * byy) = 0 := by
    rw [hwh]
    exact Nat.mul_mod_right _ _
  have hqx : bw * nby % bw = 0 := Nat.mul_mod_right bw nby
  have hqy : bw * nby / bw = nby := Nat.mul_div_cancel_left nby hbwpos
  have hstate : stateAtExt w h bx byy (w * h) =
      ⟨⟨w, h, bx, byy, 0, nby * byy, 0, 0⟩, bw * nby⟩ := by
    simp only [stateAtExt]
    rw [hbwdiv, hq, hrr, hqx, hqy, Nat.zero_mod, Nat.zero_div, Nat.zero_mul]
  rw [hstate]
  show PixelBlockIteratorExt.next _ = _
  unfold PixelBlockIteratorExt.next
  dsimp only
  rw [if_pos (by rw [hnby]; exact Nat.le_of_eq (by ring))]

theorem collectPBIExt_closed (w h bx byy : Nat) (hbx : 0 < bx) (hby : 0 < byy)
    (hw : bx ∣ w) (hh : byy ∣ h) (hwpos : 0 < w) :
    ∀ (fuel k : Nat), k ≤ w * h → w * h - k ≤ fuel →
      collectPBIExt fuel (stateAtExt w h bx byy k) =
        (List.range' k (w * h - k)).map (itemAtExt w bx byy) := by
  intro fuel
  induction fuel with
  | zero =>
    intro k hk hfuel
    have h0 : w * h - k = 0 := by omega
    rw [h0]
    rfl
  | succ fuel ih =>
    intro k hk hfuel
    rcases Nat.eq_or_lt_of_le hk with heq | hlt
    · subst heq
      have h0 : w * h - w * h = 0 := by omega
      rw [h0]
      show collectPBIExt (fuel + 1) _ = _
      unfold collectPBIExt
      rw [stateAtExt_next_terminal w h bx byy hbx hby hw hh hwpos]
      rfl
    · show collectPBIExt (fuel + 1) _ = _
      unfold collectPBIExt
      rw [stateAtExt_next w h bx byy hbx hby hw hh k hlt]
      dsimp only
      have hm : w * h - k = (w * h - (k + 1)) + 1 := by omega
      rw [hm, List.range'_succ, List.map_cons]
      rw [ih (k + 1) (by omega) (by omega)]

theorem flatMap_congr_local {α β : Type} (l : List α) (f g : α → List β)
    (h : ∀ a ∈ l, f a = g a) : l.flatMap f = l.flatMap g := by
  induction l with
  | nil => rfl
  | cons a rest ih =>
    simp only [List.flatMap_cons]
    rw [h a (List.mem_cons_self a rest), ih fun b hb => h b (List.mem_cons_of_mem a hb)]

theorem range_mul_flatMap {α : Type} (f : Nat → α) :
    ∀ (m n : Nat), (List.range (m * n)).map f =
      (List.range m).flatMap fun i => (List.range n).map fun j => f (i * n + j) := by
  intro m
  induction m with
  | zero => intro n; simp
  | succ m ih =>
    intro n
    have hmul : (m + 1) * n = m * n + n := by ring
    rw [hmul, List.range_add, List.map_append, ih, List.range_succ,
      List.flatMap_append]
    congr 1
    simp only [List.flatMap_cons, List.flatMap_nil, List.append_nil,
      List.map_map]
    rfl

theorem expectedOrderExt_eq_map (w h bx byy : Nat) (hbx : 0 < bx)
    (hby : 0 < byy) (hw : bx ∣ w) (hh : byy ∣ h) :
    expectedOrderExt w h bx byy =
      (List.range (w * h)).map (itemAtExt w bx byy) := by
  obtain ⟨bw, hbw⟩ := hw
  obtain ⟨nby, hnby⟩ := hh
  have hbwdiv : w / bx = bw := by rw [hbw]; exact Nat.mul_div_cancel_left bw hbx
  have hnbydiv : h / byy = nby := by
    rw [hnby]; exact Nat.mul_div_cancel_left nby hby
  have hwh : w * h = nby * (bw * (byy * bx)) := by rw [hbw, hnby]; ring
  rw [hwh, range_mul_flatMap, expectedOrderExt, hbwdiv, hnbydiv]
  apply flatMap_congr_local
  intro ib hib
  rw [List.mem_range] at hib
  rw [range_mul_flatMap]
  apply flatMap_congr_local
  intro jb hjb
  rw [List.mem_range] at hjb
  rw [range_mul_flatMap]
  apply flatMap_congr_local
  intro y hy
  rw [List.mem_range] at hy
  apply List.map_congr_left
  intro x hx
  rw [List.mem_range] at hx
  -- pointwise: itemAtExt at the composite index
  have hidx : ib * (bw * (byy * bx)) + (jb * (byy * bx) + (y * bx + x)) =
      (y * bx + x) + (ib * bw + jb) * (bx * byy) := by ring
  rw [hidx]
  simp only [itemAtExt]
  have hB : 0 < bx * byy := Nat.mul_pos hbx hby
  have hrlt : y * bx + x < bx * byy := by
    have h2 : y * bx ≤ (byy - 1) * bx := Nat.mul_le_mul_right bx (by omega)
    have h3 : byy * bx = (byy - 1) * bx + bx := by
      have h6 : byy - 1 + 1 = byy := by omega
      calc byy * bx = (byy - 1 + 1) * bx := by rw [h6]
        _ = (byy - 1) * bx + bx := by rw [Nat.succ_mul]
    have h4 : bx * byy = byy * bx := by ring
    omega
  have ediv : ((y * bx + x) + (ib * bw + jb) * (bx * byy)) / (bx * byy) =
      ib * bw + jb := by
    rw [Nat.add_mul_div_right _ _ hB, Nat.div_eq_of_lt hrlt, Nat.zero_add]
  have emod : ((y * bx + x) + (ib * bw + jb) * (bx * byy)) % (bx * byy) =
      y * bx + x := by
    rw [Nat.add_mul_mod_self_right, Nat.mod_eq_of_lt hrlt]
  have exmod : (y * bx + x) % bx = x := by
    have h5 : y * bx + x = x + y * bx := by ring
    rw [h5, Nat.add_mul_mod_self_right, Nat.mod_eq_of_lt hx]
  have exdiv : (y * bx + x) / bx = y := by
    have h5 : y * bx + x = x + y * bx := by ring
    rw [h5, Nat.add_mul_div_right _ _ hbx, Nat.div_eq_of_lt hx, Nat.zero_add]
  have eqmod : (ib * bw + jb) % bw = jb := by
    have hbwpos : 0 < bw := by omega
    have h5 : ib * bw + jb = jb + ib * bw := by ring
    rw [h5, Nat.add_mul_mod_self_right, Nat.mod_eq_of_lt hjb]
  have eqdiv : (ib * bw + jb) / bw = ib := by
    have hbwpos : 0 < bw := by omega
    have h5 : ib * bw + jb = jb + ib * bw := by ring
    rw [h5, Nat.add_mul_div_right _ _ hbwpos, Nat.div_eq_of_lt hjb, Nat.zero_add]
  rw [hbwdiv, ediv, emod, exmod, exdiv, eqmod, eqdiv]

theorem next_proj (s : PixelBlockIterator) (b : Nat) :
    s.next = Option.map (fun pe => (projItem pe.1, pe.2.iterator))
      (PixelBlockIteratorExt.next ⟨s, b⟩) := by
  unfold PixelBlockIterator.next PixelBlockIteratorExt.next
  dsimp only
  by_cases h1 : s.height ≤ s.y_block
  · rw [if_pos h1, if_pos h1]
    rfl
  · rw [if_neg h1, if_neg h1]
    by_cases h2 : s.x + 1 ≠ s.x_block_size
    · rw [if_pos h2, if_pos h2]
      rfl
    · rw [if_neg h2, if_neg h2]
      by_cases h3 : s.y + 1 ≠ s.y_block_size
      · rw [if_pos h3, if_pos h3]
        rfl
      · rw [if_neg h3, if_neg h3]
        by_cases h4 : s.width ≤ s.x_block + s.x_block_size
        · rw [if_pos h4, if_pos h4]
          rfl
        · rw [if_neg h4, if_neg h4]
          rfl

theorem collectPBI_proj (fuel : Nat) :
    ∀ (s : PixelBlockIterator) (b : Nat),
      collectPBI fuel s = (collectPBIExt fuel ⟨s, b⟩).map projItem := by
  induction fuel with
  | zero => intro s b; rfl
  | succ fuel ih =>
    intro s b
    show collectPBI (fuel + 1) s = _
    unfold collectPBI collectPBIExt
    rw [next_proj s b]
    cases hnext : PixelBlockIteratorExt.next ⟨s, b⟩ with
    | none => rfl
    | some pe =>
      dsimp only [Option.map]
      rw [ih pe.2.iterator pe.2.blocks]
      rfl

theorem expectedOrder_eq_proj (w h bx byy : Nat) :
    expectedOrder w h bx byy = (expectedOrderExt w h bx byy).map projItem := by
  unfold expectedOrder expectedOrderExt
  simp only [List.map_flatMap, List.map_map]
  rfl

/-- Claim C5, corrected: when the block dimensions are positive and divide
the positive image dimensions, both iterators yield exactly `w * h` items,
blocks left-to-right then top-to-bottom, pixels row-major within a block (the
extended variant also carrying the block count and in-block column); without
these hypotheses the claim fails. -/
theorem pixel_block_iterator_corrected (w h bx byy : Nat) (hbx : 0 < bx)
    (hby : 0 < byy) (hw : bx ∣ w) (hh : byy ∣ h) (hwpos : 0 < w) :
    pixelBlockIteratorClaim w h bx byy := by
  have hext : ∀ fuel, w * h ≤ fuel →
      collectPBIExt fuel (PixelBlockIteratorExt.new w h bx byy) =
        expectedOrderExt w h bx byy := by
    intro fuel hfuel
    rw [← stateAtExt_zero,
      collectPBIExt_closed w h bx byy hbx hby hw hh hwpos fuel 0 (by omega)
        (by omega),
      expectedOrderExt_eq_map w h bx byy hbx hby hw hh, Nat.sub_zero,
      ← List.range_eq_range']
  refine ⟨?_, ?_, ?_, ?_⟩
  · intro fuel hfuel
    rw [collectPBI_proj fuel (PixelBlockIterator.new w h bx byy) 0]
    have hnew : (⟨PixelBlockIterator.new w h bx byy, 0⟩ :
        PixelBlockIteratorExt) = PixelBlockIteratorExt.new w h bx byy := rfl
    rw [hnew, hext fuel hfuel, ← expectedOrder_eq_proj]
  · exact hext
  · rw [expectedOrder_eq_proj, List.length_map,
      expectedOrderExt_eq_map w h bx byy hbx hby hw hh, List.length_map,
      List.length_range]
  · rw [expectedOrderExt_eq_map w h bx byy hbx hby hw hh, List.length_map,
      List.length_range]

/-- Claim C8, confirmed: for a 4x4-block format, `encode` on a 3x3 image
fails with `SmallDimensions` and on a 6x8 image with `InvalidDimensions`,
before any pixel encoding is attempted. -/
theorem validate_input_dimension_errors :
    (∀ (pixf : Nat → Nat → Rgba) (enc : Image → List Nat),
      encodeChecked (4, 4) enc ⟨3, 3, pixf⟩ =
        .error (.SmallDimensions 3 3 4 4)) ∧
    (∀ (pixf : Nat → Nat → Rgba) (enc : Image → List Nat),
      encodeChecked (4, 4) enc ⟨6, 8, pixf⟩ =
        .error (.InvalidDimensions 6 8 4)) := by
  constructor <;> intro pixf enc
  · rfl
  · simp [encodeChecked, validate_input]

theorem encode_palette_length (lumaF : Nat → Nat → Nat → Nat)
    (fmt : PixelFormat) :
    ∀ l : List QRgba, (encode_palette lumaF fmt l).length = 2 * l.length := by
  intro l
  induction l with
  | nil => rfl
  | cons c rest ih =>
    have hcons : (encode_palette lumaF fmt (c :: rest)).length =
        2 + (encode_palette lumaF fmt rest).length := by
      cases fmt <;> simp [encode_palette] <;> omega
    rw [hcons, ih]
    simp [Nat.mul_succ]
    omega

/-- Claim C9, confirmed: a quantized palette of at most `max_colors` entries
is padded with transparent black up to exactly `max_colors` entries, never
truncated, so the emitted palette block is always `2 * max_colors` bytes. -/
theorem palette_padded_never_shrunk (palette : List QRgba) (max_colors : Nat)
    (lumaF : Nat → Nat → Nat → Nat) (fmt : PixelFormat)
    (h : palette.length ≤ max_colors) :
    palettizePad palette max_colors =
      palette ++ List.replicate (max_colors - palette.length) ⟨0, 0, 0, 0⟩ ∧
    (palettizePad palette max_colors).length = max_colors ∧
    (encode_palette lumaF fmt (palettizePad palette max_colors)).length =
      2 * max_colors := by
  have hpad : palettizePad palette max_colors =
      palette ++ List.replicate (max_colors - palette.length) ⟨0, 0, 0, 0⟩ := by
    unfold palettizePad vecResize
    by_cases heq : palette.length = max_colors
    · rw [if_neg (show ¬ palette.length ≠ max_colors by omega)]
      have h0 : max_colors - palette.length = 0 := by omega
      rw [h0]
      simp
    · rw [if_pos heq, if_neg (show ¬ max_colors ≤ palette.length by omega)]
  refine ⟨hpad, ?_, ?_⟩
  · rw [hpad]
    simp
    omega
  · rw [encode_palette_length, hpad]
    simp
    omega

/-- Claim C7, confirmed: a 64-pixel-wide texture encoded with mipmaps is the
full-size encoding followed by the six levels 32, 16, 8, 4, 2, 1, each level
padded to at least 32 bytes. -/
theorem mipmaps_64_six_levels (resize : Image → Nat → Nat → Image)
    (enc : Image → List Nat) (img : Image) (h : img.width = 64) :
    encodeWithMipmaps resize enc img =
      enc img ++ pad32 (enc (resize img 32 32)) ++
      pad32 (enc (resize img 16 16)) ++ pad32 (enc (resize img 8 8)) ++
      pad32 (enc (resize img 4 4)) ++ pad32 (enc (resize img 2 2)) ++
      pad32 (enc (resize img 1 1)) ∧
    ∀ l : List Nat, 32 ≤ (pad32 l).length := by
  constructor
  · have hgo : encodeMipmapsGo resize enc img 6 32 =
        pad32 (enc (resize img 32 32)) ++ (pad32 (enc (resize img 16 16)) ++
        (pad32 (enc (resize img 8 8)) ++ (pad32 (enc (resize img 4 4)) ++
        (pad32 (enc (resize img 2 2)) ++ (pad32 (enc (resize img 1 1)) ++
          []))))) := rfl
    have h6 : Nat.log2 64 = 6 := by simp [Nat.log2]
    have h32 : (64 : Nat) / 2 = 32 := by norm_num
    unfold encodeWithMipmaps encode_mipmaps
    rw [h, h6, h32, hgo]
    simp [List.append_assoc]
  · intro l
    unfold pad32
    by_cases hl : l.length < 32
    · simp [hl]
      omega
    · simp [hl]
      omega

theorem encodeMipmapsGo_closed (resize : Image → Nat → Nat → Image)
    (enc : Image → List Nat) (img : Image) (w : Nat) :
    ∀ c k : Nat, (∀ i, i < c → 1 ≤ w >>> (k + 1 + i)) →
      encodeMipmapsGo resize enc img c (w >>> (k + 1)) =
        ((List.range c).map fun n =>
          pad32 (enc (resize img (w >>> (k + 1 + n))
            (w >>> (k + 1 + n))))).flatten := by
  intro c
  induction c with
  | zero => intro k _; rfl
  | succ c ih =>
    intro k hk
    have h1 : 1 ≤ w >>> (k + 1) := by simpa using hk 0 (Nat.succ_pos c)
    have hnl : ¬ (w >>> (k + 1) < 1) := by omega
    have hdiv : w >>> (k + 1) / 2 = w >>> (k + 1 + 1) :=
      (Nat.shiftRight_succ w (k + 1)).symm
    simp only [encodeMipmapsGo, if_neg hnl, hdiv]
    have ih' := ih (k + 1) (by
      intro i hi
      have hki := hk (i + 1) (by omega)
      have heq : k + 1 + (i + 1) = k + 1 + 1 + i := by omega
      rwa [heq] at hki)
    rw [ih']
    rw [List.range_succ_eq_map]
    simp only [List.map_cons, List.flatten_cons, Nat.add_zero]
    congr 1
    rw [List.map_map]
    congr 1
    apply List.map_congr_left
    intro n _
    have heq : k + 1 + 1 + n = k + 1 + (n + 1) := by omega
    simp [heq, Function.comp, Nat.succ_eq_add_one]

/-- Claim C10, confirmed: every mipmap level is resized to
`width >> (n+1)` x `width >> (n+1)` - both target dimensions come from the
image WIDTH only, the height is never consulted. -/
theorem mipmap_dims_from_width_only (resize : Image → Nat → Nat → Image)
    (enc : Image → List Nat) (img : Image) (h : 1 ≤ img.width) :
    encode_mipmaps resize enc img =
      ((List.range img.width.log2).map fun n =>
        pad32 (enc (resize img (img.width >>> (n + 1))
          (img.width >>> (n + 1))))).flatten := by
  unfold encode_mipmaps
  have h2 : img.width / 2 = img.width >>> (0 + 1) := by
    rw [Nat.zero_add, Nat.shiftRight_one]
  rw [h2, encodeMipmapsGo_closed]
  · congr 1
    apply List.map_congr_left
    intro n _
    have heq : 0 + 1 + n = n + 1 := by omega
    rw [heq]
  · intro i hi
    have hlog : i + 1 ≤ img.width.log2 := by omega
    have hpow : 2 ^ (i + 1) ≤ img.width := by
      calc 2 ^ (i + 1) ≤ 2 ^ img.width.log2 :=
            Nat.pow_le_pow_right (by norm_num) hlog
        _ ≤ img.width := by
            rw [Nat.log2_eq_log_two]
            exact Nat.pow_log_le_self 2 (by omega)
    have hidx : 0 + 1 + i = i + 1 := by omega
    have hsr : img.width >>> (0 + 1 + i) = img.width / 2 ^ (i + 1) := by
      rw [hidx, Nat.shiftRight_eq_div_pow]
    rw [hsr]
    exact (Nat.one_le_div_iff (Nat.pos_pow_of_pos _ (by norm_num))).mpr hpow

theorem itemAtExt_44_fst (w n : Nat) : (itemAtExt w 4 4 n).1 = n / 16 := rfl

theorem argbEncStep_expand (image : Image) (f0 : Nat → Nat) (j : Nat)
    (w n : Nat) :
    argbEncStep image (f0, j) (itemAtExt w 4 4 n) =
      ((fun q =>
        if q = n / 16 * 32 + j then
          (image.pix (projItem (itemAtExt w 4 4 n)).1
            (projItem (itemAtExt w 4 4 n)).2).a
        else if q = n / 16 * 32 + j + 1 then
          (image.pix (projItem (itemAtExt w 4 4 n)).1
            (projItem (itemAtExt w 4 4 n)).2).r
        else if q = n / 16 * 32 + j + 32 then
          (image.pix (projItem (itemAtExt w 4 4 n)).1
            (projItem (itemAtExt w 4 4 n)).2).g
        else if q = n / 16 * 32 + j + 33 then
          (image.pix (projItem (itemAtExt w 4 4 n)).1
            (projItem (itemAtExt w 4 4 n)).2).b
        else f0 q),
       j + 2) := rfl

theorem argbEncFold_frame (image : Image) (w : Nat) :
    ∀ (m k : Nat) (f0 : Nat → Nat) (q : Nat),
      (∀ n, k ≤ n → n < k + m →
        q ≠ argbBase n ∧ q ≠ argbBase n + 1 ∧ q ≠ argbBase n + 32 ∧
          q ≠ argbBase n + 33) →
      ((((List.range' k m).map (itemAtExt w 4 4)).foldl (argbEncStep image)
        (f0, 2 * k)).1) q = f0 q := by
  intro m
  induction m with
  | zero => intro k f0 q _; rfl
  | succ m ih =>
    intro k f0 q hq
    rw [List.range'_succ, List.map_cons, List.foldl_cons, argbEncStep_expand]
    have h2k : 2 * k + 2 = 2 * (k + 1) := by omega
    rw [h2k]
    rw [ih (k + 1) _ q (by
      intro n hn1 hn2
      exact hq n (by omega) (by omega))]
    have hk := hq k (by omega) (by omega)
    have hbase : argbBase k = k / 16 * 32 + 2 * k := rfl
    rw [if_neg (by omega), if_neg (by omega), if_neg (by omega),
      if_neg (by omega)]

theorem argbEncFold_write (image : Image) (w : Nat) :
    ∀ (m k : Nat) (f0 : Nat → Nat) (n : Nat), k ≤ n → n < k + m →
      (∀ o, o = 0 ∨ o = 1 ∨ o = 32 ∨ o = 33 →
        ((((List.range' k m).map (itemAtExt w 4 4)).foldl (argbEncStep image)
          (f0, 2 * k)).1) (argbBase n + o) =
        (if o = 0 then
          (image.pix (projItem (itemAtExt w 4 4 n)).1
            (projItem (itemAtExt w 4 4 n)).2).a
         else if o = 1 then
          (image.pix (projItem (itemAtExt w 4 4 n)).1
            (projItem (itemAtExt w 4 4 n)).2).r
         else if o = 32 then
          (image.pix (projItem (itemAtExt w 4 4 n)).1
            (projItem (itemAtExt w 4 4 n)).2).g
         else
          (image.pix (projItem (itemAtExt w 4 4 n)).1
            (projItem (itemAtExt w 4 4 n)).2).b)) := by
  intro m
  induction m with
  | zero => intro k f0 n hk hn; omega
  | succ m ih =>
    intro k f0 n hk hn o ho
    rw [List.range'_succ, List.map_cons, List.foldl_cons, argbEncStep_expand]
    have h2k : 2 * k + 2 = 2 * (k + 1) := by omega
    rw [h2k]
    rcases Nat.eq_or_lt_of_le hk with heq | hlt
    · -- n = k: the write happens now; later steps do not touch these bytes
      subst heq
      rw [argbEncFold_frame image w m (k + 1) _ _ (by
        intro n' hn1 hn2
        have hbase : argbBase k = k / 16 * 32 + 2 * k := rfl
        have hbase' : argbBase n' = n' / 16 * 32 + 2 * n' := rfl
        refine ⟨by omega, by omega, by omega, by omega⟩)]
      have hbase : argbBase k = k / 16 * 32 + 2 * k := rfl
      rcases ho with rfl | rfl | rfl | rfl
      · rw [if_pos (by omega)]
        rfl
      · rw [if_neg (by omega), if_pos (by omega)]
        rfl
      · rw [if_neg (by omega), if_neg (by omega), if_pos (by omega)]
        rfl
      · rw [if_neg (by omega), if_neg (by omega), if_neg (by omega),
          if_pos (by omega)]
        rfl
    · exact ih (k + 1) _ n hlt (by omega) o ho

theorem argbDecStep_expand (data : Nat → Nat) (f0 : Nat → Nat → Rgba)
    (j w n : Nat) :
    argbDecStep data (f0, j) (itemAtExt w 4 4 n) =
      ((fun x' y' =>
        if x' = (projItem (itemAtExt w 4 4 n)).1 ∧
            y' = (projItem (itemAtExt w 4 4 n)).2 then
          ⟨data (j + n / 16 * 32 + 1), data (j + n / 16 * 32 + 32),
           data (j + n / 16 * 32 + 33), data (j + n / 16 * 32)⟩
        else f0 x' y'),
       j + 2) := rfl

theorem argbDecFold_frame (data : Nat → Nat) (w : Nat) :
    ∀ (m k : Nat) (f0 : Nat → Nat → Rgba) (x y : Nat),
      (∀ n, k ≤ n → n < k + m →
        ¬(x = (projItem (itemAtExt w 4 4 n)).1 ∧
          y = (projItem (itemAtExt w 4 4 n)).2)) →
      ((((List.range' k m).map (itemAtExt w 4 4)).foldl (argbDecStep data)
        (f0, 2 * k)).1) x y = f0 x y := by
  intro m
  induction m with
  | zero => intro k f0 x y _; rfl
  | succ m ih =>
    intro k f0 x y hxy
    rw [List.range'_succ, List.map_cons, List.foldl_cons, argbDecStep_expand]
    have h2k : 2 * k + 2 = 2 * (k + 1) := by omega
    rw [h2k]
    rw [ih (k + 1) _ x y (by
      intro n hn1 hn2
      exact hxy n (by omega) (by omega))]
    rw [if_neg (hxy k (by omega) (by omega))]

theorem argbDecFold_write (data : Nat → Nat) (w : Nat) :
    ∀ (m k : Nat) (f0 : Nat → Nat → Rgba) (n : Nat), k ≤ n → n < k + m →
      (∀ n', n < n' → n' < k + m →
        ¬(projItem (itemAtExt w 4 4 n') = projItem (itemAtExt w 4 4 n))) →
      ((((List.range' k m).map (itemAtExt w 4 4)).foldl (argbDecStep data)
        (f0, 2 * k)).1) (projItem (itemAtExt w 4 4 n)).1
          (projItem (itemAtExt w 4 4 n)).2 =
        ⟨data (argbBase n + 1), data (argbBase n + 32), data (argbBase n + 33),
         data (argbBase n)⟩ := by
  intro m
  induction m with
  | zero => intro k f0 n hk hn; omega
  | succ m ih =>
    intro k f0 n hk hn hlater
    rw [List.range'_succ, List.map_cons, List.foldl_cons, argbDecStep_expand]
    have h2k : 2 * k + 2 = 2 * (k + 1) := by omega
    rw [h2k]
    rcases Nat.eq_or_lt_of_le hk with heq | hlt
    · subst heq
      rw [argbDecFold_frame data w m (k + 1) _ _ _ (by
        intro n' hn1 hn2 hcontra
        exact hlater n' (by omega) (by omega) (by
          rw [Prod.ext_iff]
          exact ⟨hcontra.1.symm, hcontra.2.symm⟩))]
      rw [if_pos ⟨rfl, rfl⟩]
      have hb : 2 * k + k / 16 * 32 = argbBase k := by
        unfold argbBase
        omega
      rw [hb]
    · exact ih (k + 1) _ n hlt (by omega) (by
        intro n' hn1 hn2
        exact hlater n' hn1 (by omega))

theorem projItem_itemAtExt (w n : Nat) :
    projItem (itemAtExt w 4 4 n) =
      (n / 16 % (w / 4) * 4 + n % 16 % 4,
       n / 16 / (w / 4) * 4 + n % 16 / 4) := rfl

theorem argbCoords_inj (w n n' : Nat)
    (h : projItem (itemAtExt w 4 4 n) = projItem (itemAtExt w 4 4 n')) :
    n = n' := by
  rw [projItem_itemAtExt, projItem_itemAtExt, Prod.ext_iff] at h
  obtain ⟨hx, hy⟩ := h
  dsimp only at hx hy
  have hmq : n / 16 % (w / 4) = n' / 16 % (w / 4) := by omega
  have hdq : n / 16 / (w / 4) = n' / 16 / (w / 4) := by omega
  have h1 := Nat.mod_add_div' (n / 16) (w / 4)
  have h2 := Nat.mod_add_div' (n' / 16) (w / 4)
  rw [hmq, hdq] at h1
  omega

theorem coords_argbIndexOf (w x y : Nat) (hxw : x < w) (hw : 4 ∣ w) :
    projItem (itemAtExt w 4 4 (argbIndexOf w x y)) = (x, y) := by
  rw [projItem_itemAtExt]
  have hxq : x / 4 < w / 4 := by omega
  have hblk : argbIndexOf w x y / 16 = y / 4 * (w / 4) + x / 4 := by
    unfold argbIndexOf
    omega
  have hrem : argbIndexOf w x y % 16 = y % 4 * 4 + x % 4 := by
    unfold argbIndexOf
    omega
  rw [hblk, hrem]
  have hmq : (y / 4 * (w / 4) + x / 4) % (w / 4) = x / 4 := by
    have h5 : y / 4 * (w / 4) + x / 4 = x / 4 + y / 4 * (w / 4) := by ring
    rw [h5, Nat.add_mul_mod_self_right, Nat.mod_eq_of_lt hxq]
  have hdq : (y / 4 * (w / 4) + x / 4) / (w / 4) = y / 4 := by
    have h5 : y / 4 * (w / 4) + x / 4 = x / 4 + y / 4 * (w / 4) := by ring
    have hwpos : 0 < w / 4 := by omega
    rw [h5, Nat.add_mul_div_right _ _ hwpos, Nat.div_eq_of_lt hxq,
      Nat.zero_add]
  rw [hmq, hdq]
  have hx4 : y % 4 * 4 + x % 4 < 16 := by omega
  have e1 : (y % 4 * 4 + x % 4) % 4 = x % 4 := by omega
  have e2 : (y % 4 * 4 + x % 4) / 4 = y % 4 := by omega
  rw [e1, e2]
  have ex : x / 4 * 4 + x % 4 = x := by omega
  have ey : y / 4 * 4 + y % 4 = y := by omega
  rw [ex, ey]

theorem argbIndexOf_lt (w h x y : Nat) (hxw : x < w) (hyh : y < h)
    (hw : 4 ∣ w) (hh : 4 ∣ h) : argbIndexOf w x y < w * h := by
  have hxq : x / 4 < w / 4 := by omega
  have hyq : y / 4 < h / 4 := by omega
  have hblk : y / 4 * (w / 4) ≤ (h / 4 - 1) * (w / 4) :=
    Nat.mul_le_mul_right _ (by omega)
  have hsucc : h / 4 * (w / 4) = (h / 4 - 1) * (w / 4) + w / 4 := by
    have h6 : h / 4 - 1 + 1 = h / 4 := by omega
    calc h / 4 * (w / 4) = (h / 4 - 1 + 1) * (w / 4) := by rw [h6]
      _ = (h / 4 - 1) * (w / 4) + w / 4 := by rw [Nat.succ_mul]
  have hwh : w * h = 16 * (h / 4 * (w / 4)) := by
    have hw4 : w = w / 4 * 4 := (Nat.div_mul_cancel hw).symm
    have hh4 : h = h / 4 * 4 := (Nat.div_mul_cancel hh).symm
    calc w * h = (w / 4 * 4) * (h / 4 * 4) := by rw [← hw4, ← hh4]
      _ = 16 * (h / 4 * (w / 4)) := by ring
  unfold argbIndexOf
  omega

theorem argbFuel_ge (w h : Nat) : w * h ≤ argbFuel w h := by
  have : argbFuel w h = w * h + 4 * w + 4 * h + 16 := by
    unfold argbFuel
    ring
  omega

/-- Claim C4, confirmed: the Argb8888 encoder lays each 4x4 block out as 32
A/R byte pairs followed by 32 G/B byte pairs (byte offsets `64b + 2k`,
`+1`, `+32`, `+33` for the block's `k`-th pixel), and the matching decoder
restores every pixel of the image exactly. -/
theorem argb8888_roundtrip (image : Image) (hw : 4 ∣ image.width)
    (hh : 4 ∣ image.height) :
    (∀ b k, 16 * b + k < image.width * image.height → k < 16 →
      encode_pixels_argb8888 image (64 * b + 2 * k) =
        (image.pix (projItem (itemAtExt image.width 4 4 (16 * b + k))).1
          (projItem (itemAtExt image.width 4 4 (16 * b + k))).2).a ∧
      encode_pixels_argb8888 image (64 * b + 2 * k + 1) =
        (image.pix (projItem (itemAtExt image.width 4 4 (16 * b + k))).1
          (projItem (itemAtExt image.width 4 4 (16 * b + k))).2).r ∧
      encode_pixels_argb8888 image (64 * b + 2 * k + 32) =
        (image.pix (projItem (itemAtExt image.width 4 4 (16 * b + k))).1
          (projItem (itemAtExt image.width 4 4 (16 * b + k))).2).g ∧
      encode_pixels_argb8888 image (64 * b + 2 * k + 33) =
        (image.pix (projItem (itemAtExt image.width 4 4 (16 * b + k))).1
          (projItem (itemAtExt image.width 4 4 (16 * b + k))).2).b) ∧
    (∀ x < image.width, ∀ y < image.height,
      (decode_pixels_argb8888 (encode_pixels_argb8888 image) image.width
        image.height).pix x y = image.pix x y) := by
  set w := image.width with hwdef
  set h := image.height with hhdef
  rcases Nat.eq_zero_or_pos w with hw0 | hwpos
  · constructor
    · intro b k hbk _
      rw [hw0] at hbk
      omega
    · intro x hx
      rw [hw0] at hx
      omega
  have hlist : collectPBIExt (argbFuel w h) (PixelBlockIteratorExt.new w h 4 4) =
      (List.range' 0 (w * h)).map (itemAtExt w 4 4) := by
    rw [← stateAtExt_zero,
      collectPBIExt_closed w h 4 4 (by norm_num) (by norm_num) hw hh hwpos
        (argbFuel w h) 0 (by omega) (by have := argbFuel_ge w h; omega)]
    rw [Nat.sub_zero]
  have henc : ∀ n, n < w * h → ∀ o, o = 0 ∨ o = 1 ∨ o = 32 ∨ o = 33 →
      encode_pixels_argb8888 image (argbBase n + o) =
        (if o = 0 then
          (image.pix (projItem (itemAtExt w 4 4 n)).1
            (projItem (itemAtExt w 4 4 n)).2).a
         else if o = 1 then
          (image.pix (projItem (itemAtExt w 4 4 n)).1
            (projItem (itemAtExt w 4 4 n)).2).r
         else if o = 32 then
          (image.pix (projItem (itemAtExt w 4 4 n)).1
            (projItem (itemAtExt w 4 4 n)).2).g
         else
          (image.pix (projItem (itemAtExt w 4 4 n)).1
            (projItem (itemAtExt w 4 4 n)).2).b) := by
    intro n hn o ho
    unfold encode_pixels_argb8888
    rw [← hwdef, ← hhdef, hlist]
    have h0 : (0 : Nat) = 2 * 0 := rfl
    rw [show ((fun _ => 0 : Nat → Nat), 0) =
        ((fun _ => 0 : Nat → Nat), 2 * 0) from rfl]
    exact argbEncFold_write image w (w * h) 0 _ n (by omega) (by omega) o ho
  constructor
  · intro b k hbk hk
    have hdiv : (16 * b + k) / 16 = b := by omega
    have hbase : argbBase (16 * b + k) = 64 * b + 2 * k := by
      unfold argbBase
      omega
    refine ⟨?_, ?_, ?_, ?_⟩
    · have := henc (16 * b + k) hbk 0 (by omega)
      rw [hbase] at this
      simpa using this
    · have := henc (16 * b + k) hbk 1 (by omega)
      rw [hbase] at this
      simpa using this
    · have := henc (16 * b + k) hbk 32 (by omega)
      rw [hbase] at this
      simpa using this
    · have := henc (16 * b + k) hbk 33 (by omega)
      rw [hbase] at this
      simpa using this
  · intro x hx y hy
    have hn : argbIndexOf w x y < w * h :=
      argbIndexOf_lt w h x y hx hy hw hh
    have hcoords : projItem (itemAtExt w 4 4 (argbIndexOf w x y)) = (x, y) :=
      coords_argbIndexOf w x y hx hw
    unfold decode_pixels_argb8888
    dsimp only
    rw [hlist]
    rw [show ((fun _ _ => (⟨0, 0, 0, 0⟩ : Rgba) : Nat → Nat → Rgba), 0) =
        ((fun _ _ => (⟨0, 0, 0, 0⟩ : Rgba) : Nat → Nat → Rgba), 2 * 0)
      from rfl]
    have hwrite := argbDecFold_write (encode_pixels_argb8888 image) w (w * h) 0
      (fun _ _ => ⟨0, 0, 0, 0⟩) (argbIndexOf w x y) (by omega) (by omega) (by
        intro n' hn1 hn2 hcontra
        have := argbCoords_inj w n' (argbIndexOf w x y) hcontra
        omega)
    rw [hcoords] at hwrite
    dsimp only at hwrite
    rw [hwrite]
    have ha := henc (argbIndexOf w x y) hn 0 (by omega)
    have hr := henc (argbIndexOf w x y) hn 1 (by omega)
    have hg := henc (argbIndexOf w x y) hn 32 (by omega)
    have hb := henc (argbIndexOf w x y) hn 33 (by omega)
    rw [hcoords] at ha hr hg hb
    dsimp only at ha hr hg hb
    simp only [Nat.add_zero] at ha
    rw [ha, hr, hg, hb]
    simp

/-- Claim C6, code bug: decoding a GVR file whose data flags have the
`ExternalPalette` bit (0x2) set reaches the `unimplemented!()` arm and panics,
for every choice of pixel decoder, instead of returning one of the documented
`TextureDecodeError` values. -/
theorem decode_external_palette_panics
    (pd : DataFormat → PixelFormat → Bool → List Nat → Nat → Nat →
      Option Image) :
    TextureDecoder.decode pd fileExternalPalette = .panicked := rfl

/-- Concrete instance of the C1 theorem on the black/white block. -/
theorem bc1_swap_condition_corrected_witness :
    bc1StoredPair blkBlackWhite =
      (if bc1ColorU16 (bc1PalettePair blkBlackWhite).2 <
            bc1ColorU16 (bc1PalettePair blkBlackWhite).1 ↔
          (scanPairs blkBlackWhite).alpha = true
       then ((bc1PalettePair blkBlackWhite).2,
             (bc1PalettePair blkBlackWhite).1)
       else bc1PalettePair blkBlackWhite) ∧
    (bc1ColorU16 (bc1StoredPair blkBlackWhite).2 <
        bc1ColorU16 (bc1StoredPair blkBlackWhite).1 ↔
      (scanPairs blkBlackWhite).alpha = false) :=
  bc1_swap_condition_corrected blkBlackWhite (by decide)

/-- The black/white block violates the claimed swap condition as stated:
the code does not swap exactly when the spec's boolean is false. -/
theorem bc1_swap_condition_counterexample :
    ¬ (bc1StoredPair blkBlackWhite =
      if (decide (bc1ColorU16 (bc1PalettePair blkBlackWhite).2 <
            bc1ColorU16 (bc1PalettePair blkBlackWhite).1)
          == (scanPairs blkBlackWhite).alpha) = false
      then ((bc1PalettePair blkBlackWhite).2,
            (bc1PalettePair blkBlackWhite).1)
      else bc1PalettePair blkBlackWhite) := by decide

/-- Concrete instance of the C2 theorem on the uniform gray block. -/
theorem bc1_degenerate_perturb_corrected_witness :
    (bc1PalettePair blkGray).2 =
      (if (bc1InitialPair blkGray (scanPairs blkGray)).1.getD 0 0 >>> 3 = 0 ∧
          (bc1InitialPair blkGray (scanPairs blkGray)).1.getD 1 0 >>> 2 = 0 ∧
          (bc1InitialPair blkGray (scanPairs blkGray)).1.getD 2 0 >>> 3 = 0
       then [255, 255, 255, 255]
       else [0, 0, 0, 255]) ∧
    bc1ColorU16 (bc1PalettePair blkGray).1 ≠
      bc1ColorU16 (bc1PalettePair blkGray).2 :=
  bc1_degenerate_perturb_corrected blkGray (by decide) 0 (by decide)
    (by decide)

/-- The gray block is degenerate (its pair quantizes equal, first color
nonzero), yet the second color is not perturbed to white as the claim
states. -/
theorem bc1_degenerate_perturb_counterexample :
    (scanPairs blkGray).dist.isSome = true ∧
    ((bc1InitialPair blkGray (scanPairs blkGray)).1.getD 0 0 >>> 3 =
       (bc1InitialPair blkGray (scanPairs blkGray)).2.getD 0 0 >>> 3 ∧
     (bc1InitialPair blkGray (scanPairs blkGray)).1.getD 1 0 >>> 2 =
       (bc1InitialPair blkGray (scanPairs blkGray)).2.getD 1 0 >>> 2 ∧
     (bc1InitialPair blkGray (scanPairs blkGray)).1.getD 2 0 >>> 3 =
       (bc1InitialPair blkGray (scanPairs blkGray)).2.getD 2 0 >>> 3) ∧
    ¬ (bc1InitialPair blkGray (scanPairs blkGray)).1.getD 0 0 >>> 3 = 0 ∧
    (bc1PalettePair blkGray).2 ≠ [255, 255, 255, 255] := by decide

/-- A block whose only transparent pixel is pixel 15 refutes the claim as
stated: the code never tests pixel 15's alpha, so the block is not flagged. -/
theorem bc1_pair_scan_counterexample : ¬ scanClaimC3 blkLastTransparent := by
  intro h
  have halpha : (scanPairs blkLastTransparent).alpha = true :=
    h.1.mpr ⟨15, by decide, by decide⟩
  have hfalse : (scanPairs blkLastTransparent).alpha = false := by decide
  rw [hfalse] at halpha
  exact Bool.false_ne_true halpha

/-- Concrete instance of the C4 theorem on the 4x8 test image. -/
theorem argb8888_roundtrip_witness :
    (∀ b k, 16 * b + k < imgTest48.width * imgTest48.height → k < 16 →
      encode_pixels_argb8888 imgTest48 (64 * b + 2 * k) =
        (imgTest48.pix
          (projItem (itemAtExt imgTest48.width 4 4 (16 * b + k))).1
          (projItem (itemAtExt imgTest48.width 4 4 (16 * b + k))).2).a ∧
      encode_pixels_argb8888 imgTest48 (64 * b + 2 * k + 1) =
        (imgTest48.pix
          (projItem (itemAtExt imgTest48.width 4 4 (16 * b + k))).1
          (projItem (itemAtExt imgTest48.width 4 4 (16 * b + k))).2).r ∧
      encode_pixels_argb8888 imgTest48 (64 * b + 2 * k + 32) =
        (imgTest48.pix
          (projItem (itemAtExt imgTest48.width 4 4 (16 * b + k))).1
          (projItem (itemAtExt imgTest48.width 4 4 (16 * b + k))).2).g ∧
      encode_pixels_argb8888 imgTest48 (64 * b + 2 * k + 33) =
        (imgTest48.pix
          (projItem (itemAtExt imgTest48.width 4 4 (16 * b + k))).1
          (projItem (itemAtExt imgTest48.width 4 4 (16 * b + k))).2).b) ∧
    (∀ x < imgTest48.width, ∀ y < imgTest48.height,
      (decode_pixels_argb8888 (encode_pixels_argb8888 imgTest48)
        imgTest48.width imgTest48.height).pix x y = imgTest48.pix x y) :=
  argb8888_roundtrip imgTest48 (by decide) (by decide)

/-- Concrete instance of the C5 theorem: 4x8 image, 4x4 blocks. -/
theorem pixel_block_iterator_corrected_witness :
    pixelBlockIteratorClaim 4 8 4 4 :=
  pixel_block_iterator_corrected 4 8 4 4 (by decide) (by decide) (by decide)
    (by decide) (by decide)

/-- The unconditioned claim fails: for a 2x2 image with 4x4 blocks the
iterator emits 16 items, not `w * h = 4`. -/
theorem pixel_block_iterator_counterexample :
    ¬ pixelBlockIteratorClaim 2 2 4 4 := by
  intro h
  exact absurd (h.1 5 (by decide)) (by decide)

/-- Concrete instance of the C7 theorem on a 64x64 image with an identity
resizer and a constant one-byte encoder. -/
theorem mipmaps_64_six_levels_witness :
    encodeWithMipmaps (fun i _ _ => i) (fun _ => [0]) imgTest64 =
      [0] ++ pad32 [0] ++ pad32 [0] ++ pad32 [0] ++ pad32 [0] ++ pad32 [0] ++
        pad32 [0] ∧
    ∀ l : List Nat, 32 ≤ (pad32 l).length :=
  mipmaps_64_six_levels (fun i _ _ => i) (fun _ => [0]) imgTest64 rfl

/-- Concrete instance of the C9 theorem: one palette entry padded to 16. -/
theorem palette_padded_never_shrunk_witness :
    palettizePad [⟨1, 2, 3, 4⟩] 16 =
      [⟨1, 2, 3, 4⟩] ++ List.replicate (16 - [(⟨1, 2, 3, 4⟩ : QRgba)].length)
        ⟨0, 0, 0, 0⟩ ∧
    (palettizePad [⟨1, 2, 3, 4⟩] 16).length = 16 ∧
    (encode_palette (fun _ _ _ => 0) PixelFormat.RGB5A3
      (palettizePad [⟨1, 2, 3, 4⟩] 16)).length = 2 * 16 :=
  palette_padded_never_shrunk [⟨1, 2, 3, 4⟩] 16 (fun _ _ _ => 0)
    PixelFormat.RGB5A3 (by decide)

/-- Concrete instance of the C10 theorem on a 64x64 image. -/
theorem mipmap_dims_from_width_only_witness :
    encode_mipmaps (fun i _ _ => i) (fun _ => [0]) imgTest64 =
      ((List.range imgTest64.width.log2).map fun _ => pad32 [0]).flatten :=
  mipmap_dims_from_width_only (fun i _ _ => i) (fun _ => [0]) imgTest64
    (by decide)
